import Mathlib

/-!
# Ride sharing fare model (`src/cpp/main.cpp`)

A shallow embedding of the C++ program: the `Ride` class hierarchy, the `Driver` and `Rider`
aggregates that hold `Ride*` pointers, and `main`.

* The program is embedded with `double` as exact rational arithmetic (`Double := ℚ`), the "real
  number" of the specification.  Division is the one operation that is undefined on exact
  numbers, so it is checked (`Double.div`).  What is proved in this model is structure: which
  expression a method evaluates, what it stores, what it reads, in which order.
* Binary rounding and overflow are the subject of a second layer, `F64`: IEEE 754 binary64 with
  rounding to nearest, ties to even.  The arithmetic of `computeFare`, `calculateTotalEarnings`
  and `computeAverageFare` is embedded a second time on `F64` (namespace `Binary64`); numeric
  values, orderings and error bounds of results are stated there.
* Objects created with `new` live in a `Heap`; a `Ride*` is an index into it.  Reading through a
  pointer that does not designate a live object is a `Fault`.
* Everything written to `cout` is collected as a list of lines; the text of a `double` is produced
  by a function `showDouble` that the printing operations take as an argument.
-/

namespace RideSharing

/-- The C++ type `double`, as exact rationals: no rounding, no overflow.  The rounded
arithmetic is `F64`. -/
abbrev Double := ℚ

/-- What can go wrong at run time in the model. -/
inductive Fault where
  | danglingPointer
  | divisionByZero
deriving DecidableEq, Repr

/-- Division of doubles `a / b`, undefined when the divisor is zero. -/
def Double.div (a b : Double) : Except Fault Double :=
  if b = 0 then .error .divisionByZero else .ok (a / b)

/-! ## class Ride -/

/-- The data members of the base class `Ride`. -/
structure Ride where
  rideId : Int
  pickupLocation : String
  dropoffLocation : String
  distanceMiles : Double
  fareTotal : Double
deriving DecidableEq, Repr

/-- The constructor `Ride::Ride`: the fare total starts at `0.0`. -/
def Ride.construct (id : Int) (pickup dropoff : String) (dist : Double) : Ride where
  rideId := id
  pickupLocation := pickup
  dropoffLocation := dropoff
  distanceMiles := dist
  fareTotal := 0.0

def Ride.getRideId (self : Ride) : Int :=
  self.rideId

def Ride.getDistance (self : Ride) : Double :=
  self.distanceMiles

def Ride.getFareTotal (self : Ride) : Double :=
  self.fareTotal

def Ride.setFareTotal (self : Ride) (value : Double) : Ride :=
  { self with fareTotal := value }

/-! ## class StandardRide -/

/-- The class `StandardRide : public Ride`, which adds no data member. -/
structure StandardRide extends Ride
deriving DecidableEq, Repr

def StandardRide.construct (id : Int) (pickup dropoff : String) (dist : Double) :
    StandardRide :=
  { toRide := Ride.construct id pickup dropoff dist }

/-- The method `StandardRide::computeFare`: the returned value and the object afterwards. -/
def StandardRide.computeFare (self : StandardRide) : Double × StandardRide :=
  let baseFare : Double := 1.5
  let perMile : Double := 1.8
  let total : Double := baseFare + perMile * self.distanceMiles
  (total, { self with toRide := self.toRide.setFareTotal total })

/-- The method `StandardRide::printRideDetails`: the line written to `cout`. -/
def StandardRide.printRideDetails (showDouble : Double → String) (self : StandardRide) : String :=
  "[Standard] Ride ID: " ++ toString self.rideId
    ++ " | From: " ++ self.pickupLocation
    ++ " | To: " ++ self.dropoffLocation
    ++ " | Distance: " ++ showDouble self.distanceMiles ++ " miles"
    ++ " | Fare: $" ++ showDouble self.fareTotal

/-! ## class PremiumRide -/

/-- The class `PremiumRide : public Ride`, which adds no data member. -/
structure PremiumRide extends Ride
deriving DecidableEq, Repr

def PremiumRide.construct (id : Int) (pickup dropoff : String) (dist : Double) :
    PremiumRide :=
  { toRide := Ride.construct id pickup dropoff dist }

/-- The method `PremiumRide::computeFare`: the returned value and the object afterwards. -/
def PremiumRide.computeFare (self : PremiumRide) : Double × PremiumRide :=
  let baseFare : Double := 4.0
  let perMile : Double := 3.2
  let luxuryFee : Double := 1.5
  let total : Double := baseFare + perMile * self.distanceMiles + luxuryFee
  (total, { self with toRide := self.toRide.setFareTotal total })

/-- The method `PremiumRide::printRideDetails`: the line written to `cout`. -/
def PremiumRide.printRideDetails (showDouble : Double → String) (self : PremiumRide) : String :=
  "[Premium]  Ride ID: " ++ toString self.rideId
    ++ " | From: " ++ self.pickupLocation
    ++ " | To: " ++ self.dropoffLocation
    ++ " | Distance: " ++ showDouble self.distanceMiles ++ " miles"
    ++ " | Fare: $" ++ showDouble self.fareTotal

/-! ## Objects behind a `Ride*` and virtual dispatch -/

/-- An object that a `Ride*` can point to: `Ride` is abstract, so it is one of the two
concrete classes. -/
inductive RideObject where
  | standard (r : StandardRide)
  | premium (r : PremiumRide)
deriving DecidableEq, Repr

/-- The `Ride` base subobject, on which the non-virtual getters work. -/
def RideObject.toRide : RideObject → Ride
  | .standard r => r.toRide
  | .premium r => r.toRide

def RideObject.getRideId (self : RideObject) : Int :=
  self.toRide.getRideId

def RideObject.getDistance (self : RideObject) : Double :=
  self.toRide.getDistance

def RideObject.getFareTotal (self : RideObject) : Double :=
  self.toRide.getFareTotal

/-- The virtual call `computeFare()`, dispatched on the dynamic type. -/
def RideObject.computeFare : RideObject → Double × RideObject
  | .standard r => ((r.computeFare).1, .standard (r.computeFare).2)
  | .premium r => ((r.computeFare).1, .premium (r.computeFare).2)

/-- The virtual call `printRideDetails()`, dispatched on the dynamic type. -/
def RideObject.printRideDetails (showDouble : Double → String) : RideObject → String
  | .standard r => r.printRideDetails showDouble
  | .premium r => r.printRideDetails showDouble

/-! ## The heap -/

/-- A pointer `Ride*`: the index of a heap cell. -/
abbrev RidePtr := Nat

/-- The free store: one cell per `new`, emptied by `delete`. -/
abbrev Heap := List (Option RideObject)

/-- The expression `new T(...)`: a fresh cell holding the constructed object. -/
def Heap.new (h : Heap) (o : RideObject) : RidePtr × Heap :=
  (h.length, h ++ [some o])

/-- Reading `*p`. -/
def Heap.deref (h : Heap) (p : RidePtr) : Except Fault RideObject :=
  match h[p]? with
  | some (some o) => .ok o
  | _ => .error .danglingPointer

/-- Writing the object `*p` back after a member function changed it. -/
def Heap.store (h : Heap) (p : RidePtr) (o : RideObject) : Heap :=
  h.set p (some o)

/-- The statement `delete p`. -/
def Heap.delete (h : Heap) (p : RidePtr) : Heap :=
  h.set p none

/-- The call `p->computeFare()`: the returned value and the heap afterwards. -/
def Heap.computeFare (h : Heap) (p : RidePtr) : Except Fault (Double × Heap) := do
  let o ← h.deref p
  let (total, o') := o.computeFare
  pure (total, h.store p o')

/-- The call `p->getFareTotal()`. -/
def Heap.getFareTotal (h : Heap) (p : RidePtr) : Except Fault Double := do
  let o ← h.deref p
  pure o.getFareTotal

/-- The call `p->printRideDetails()`. -/
def Heap.printRideDetails (showDouble : Double → String) (h : Heap) (p : RidePtr) :
    Except Fault String := do
  let o ← h.deref p
  pure (o.printRideDetails showDouble)

/-! ## class Driver -/

structure Driver where
  driverId : Int
  driverName : String
  driverRating : Double
  completedRides : List RidePtr
deriving DecidableEq, Repr

/-- The constructor `Driver::Driver`: the ride collection starts empty. -/
def Driver.construct (id : Int) (name : String) (rating : Double) : Driver where
  driverId := id
  driverName := name
  driverRating := rating
  completedRides := []

/-- The method `Driver::addCompletedRide`: `push_back` on the vector. -/
def Driver.addCompletedRide (self : Driver) (ride : RidePtr) : Driver :=
  { self with completedRides := self.completedRides ++ [ride] }

/-- The method `Driver::printDriverInfo`: the line written to `cout`. -/
def Driver.printDriverInfo (showDouble : Double → String) (self : Driver) : String :=
  "Driver ID: " ++ toString self.driverId
    ++ " | Name: " ++ self.driverName
    ++ " | Rating: " ++ showDouble self.driverRating
    ++ " | Total rides: " ++ toString self.completedRides.length

/-- The method `Driver::calculateTotalEarnings`: the loop adds each ride's fare total to `sum`,
which starts at `0.0`. -/
def Driver.calculateTotalEarnings (h : Heap) (self : Driver) : Except Fault Double :=
  self.completedRides.foldlM (fun sum ride => do
    let fare ← h.getFareTotal ride
    pure (sum + fare)) (0.0 : Double)

/-! ## class Rider -/

structure Rider where
  riderId : Int
  riderName : String
  rideHistory : List RidePtr
deriving DecidableEq, Repr

/-- The constructor `Rider::Rider`: the history starts empty. -/
def Rider.construct (id : Int) (name : String) : Rider where
  riderId := id
  riderName := name
  rideHistory := []

/-- The method `Rider::requestRide`: `push_back` on the vector. -/
def Rider.requestRide (self : Rider) (ride : RidePtr) : Rider :=
  { self with rideHistory := self.rideHistory ++ [ride] }

/-- The method `Rider::printRideHistory`: the lines written to `cout`. -/
def Rider.printRideHistory (showDouble : Double → String) (h : Heap) (self : Rider) :
    Except Fault (List String) := do
  let header := ["Rider ID: " ++ toString self.riderId ++ " | Name: " ++ self.riderName,
    "Ride history:"]
  self.rideHistory.foldlM (fun out ride => do
    let line ← h.printRideDetails showDouble ride
    pure (out ++ [line])) header

/-- The method `Rider::computeAverageFare`. -/
def Rider.computeAverageFare (h : Heap) (self : Rider) : Except Fault Double := do
  if self.rideHistory.isEmpty then
    return 0.0
  let sum ← self.rideHistory.foldlM (fun sum ride => do
    let fare ← h.getFareTotal ride
    pure (sum + fare)) (0.0 : Double)
  Double.div sum (self.rideHistory.length : Double)

/-! ## main -/

/-- The function `printSeparator`: the line written to `cout`. -/
def printSeparator : String :=
  "----------------------------------------"

/-- What a run of `main` leaves behind. -/
structure MainResult where
  /-- The vector `rides`. -/
  rides : List RidePtr
  /-- The heap while the summaries are printed, before the final `delete` loop. -/
  heap : Heap
  driver : Driver
  rider : Rider
  /-- The value of `driver.calculateTotalEarnings()` that is printed. -/
  earnings : Double
  /-- The value of `rider.computeAverageFare()` that is printed. -/
  averageFare : Double
  /-- The lines written to `cout`. -/
  out : List String
  /-- The heap after the final `delete` loop. -/
  finalHeap : Heap
  /-- The value returned by `main`. -/
  status : Int

/-- The function `main`. -/
def main (showDouble : Double → String) : Except Fault MainResult := do
  -- Create some rides
  let h : Heap := []
  let (ride1, h) := h.new (.standard (StandardRide.construct 1 "University" "City Center" 4.3))
  let (ride2, h) := h.new
    (.premium (PremiumRide.construct 2 "International Airport" "Hotel District" 12.0))
  let (ride3, h) := h.new (.standard (StandardRide.construct 3 "Tech Park" "Student Housing" 3.1))
  let rides : List RidePtr := [] ++ [ride1] ++ [ride2] ++ [ride3]
  let out : List String := [printSeparator,
    "Calculating fares for all rides (polymorphism demo)", printSeparator]
  let (h, out) ← rides.foldlM (fun (s : Heap × List String) ride => do
    let (_, h') ← s.1.computeFare ride
    let line ← h'.printRideDetails showDouble ride
    pure (h', s.2 ++ [line])) (h, out)
  let out := out ++ [printSeparator]
  -- Create driver and rider
  let driver := Driver.construct 101 "Anushka Driver" 4.8
  let rider := Rider.construct 201 "Anushka Rider"
  -- Assign rides
  let (driver, rider) := rides.foldl (fun (s : Driver × Rider) ride =>
    (s.1.addCompletedRide ride, s.2.requestRide ride)) (driver, rider)
  let out := out ++ ["Driver info:"]
  let out := out ++ [driver.printDriverInfo showDouble]
  let earnings ← driver.calculateTotalEarnings h
  let out := out ++ ["Total driver earnings: $" ++ showDouble earnings]
  let out := out ++ [printSeparator]
  let out := out ++ ["Rider info and history:"]
  let history ← rider.printRideHistory showDouble h
  let out := out ++ history
  let averageFare ← rider.computeAverageFare h
  let out := out ++ ["Average fare paid by rider: $" ++ showDouble averageFare]
  let out := out ++ [printSeparator]
  let out := out ++ ["Program finished."]
  let finalHeap := rides.foldl (fun (g : Heap) ride => g.delete ride) h
  pure { rides := rides, heap := h, driver := driver, rider := rider, earnings := earnings,
         averageFare := averageFare, out := out, finalHeap := finalHeap, status := 0 }

/-! ## Binary64 arithmetic -/

/-- The binary logarithm of `n`, rounded down, computed with `fuel` halvings at most. -/
def log2Aux : Nat → Nat → Nat
  | 0, _ => 0
  | fuel + 1, n => if n < 2 then 0 else log2Aux fuel (n / 2) + 1

/-- The binary logarithm of `n`, rounded down (0 for `n = 0`). -/
def natLog2 (n : Nat) : Nat :=
  log2Aux n n

/-- The exponent `e` of a rational `q ≠ 0`: `2 ^ e ≤ |q| < 2 ^ (e + 1)`. -/
def expOf (q : ℚ) : ℤ :=
  let e : ℤ := (natLog2 q.num.natAbs : ℤ) - (natLog2 q.den : ℤ)
  if (2 : ℚ) ^ e ≤ |q| then e else e - 1

/-- The nearest integer, a tie going to the even one. -/
def roundHalfEven (m : ℚ) : ℤ :=
  if m - ⌊m⌋ < 1 / 2 then ⌊m⌋
  else if 1 / 2 < m - ⌊m⌋ then ⌊m⌋ + 1
  else if ⌊m⌋ % 2 = 0 then ⌊m⌋ else ⌊m⌋ + 1

/-- The spacing of the binary64 numbers around `q`: 53 significant bits, and the spacing
`2 ^ (-1074)` of the subnormal numbers below `2 ^ (-1022)`. -/
def ulpOf (q : ℚ) : ℚ :=
  (2 : ℚ) ^ (max (expOf q) (-1022) - 52)

/-- The multiple of the spacing nearest to `q`, a tie going to the even multiple. -/
def roundVal (q : ℚ) : ℚ :=
  (roundHalfEven (q / ulpOf q) : ℚ) * ulpOf q

/-- A value of the C++ type `double` in IEEE 754 binary64.  The two zeros are not told apart. -/
inductive F64 where
  | finite (v : ℚ)
  | posInf
  | negInf
  | nan
deriving DecidableEq, Repr

/-- Rounding of an exact result to binary64: to nearest, ties to even, and to an infinity when
the rounded magnitude reaches `2 ^ 1024`. -/
def F64.round (q : ℚ) : F64 :=
  if (2 : ℚ) ^ (1024 : ℤ) ≤ roundVal q then .posInf
  else if roundVal q ≤ -(2 : ℚ) ^ (1024 : ℤ) then .negInf
  else .finite (roundVal q)

/-- A decimal literal of the source, converted to the nearest `double`. -/
def F64.lit (q : ℚ) : F64 :=
  F64.round q

/-- The conversion of a `size_t` to `double`. -/
def F64.ofNat (n : Nat) : F64 :=
  F64.round (n : ℚ)

/-- The sum `a + b` of two doubles. -/
def F64.add : F64 → F64 → F64
  | .finite x, .finite y => F64.round (x + y)
  | .nan, _ => .nan
  | _, .nan => .nan
  | .posInf, .negInf => .nan
  | .negInf, .posInf => .nan
  | .posInf, _ => .posInf
  | _, .posInf => .posInf
  | .negInf, _ => .negInf
  | _, .negInf => .negInf

/-- The product `a * b` of two doubles. -/
def F64.mul : F64 → F64 → F64
  | .finite x, .finite y => F64.round (x * y)
  | .nan, _ => .nan
  | _, .nan => .nan
  | .finite x, .posInf => if 0 < x then .posInf else if x < 0 then .negInf else .nan
  | .finite x, .negInf => if 0 < x then .negInf else if x < 0 then .posInf else .nan
  | .posInf, .finite y => if 0 < y then .posInf else if y < 0 then .negInf else .nan
  | .negInf, .finite y => if 0 < y then .negInf else if y < 0 then .posInf else .nan
  | .posInf, .posInf => .posInf
  | .negInf, .negInf => .posInf
  | .posInf, .negInf => .negInf
  | .negInf, .posInf => .negInf

/-- The quotient `a / b` of two doubles; a zero divisor counts as positive zero. -/
def F64.div : F64 → F64 → F64
  | .finite x, .finite y =>
    if y = 0 then (if 0 < x then .posInf else if x < 0 then .negInf else .nan)
    else F64.round (x / y)
  | .nan, _ => .nan
  | _, .nan => .nan
  | .finite _, .posInf => .finite 0
  | .finite _, .negInf => .finite 0
  | .posInf, .finite y => if 0 ≤ y then .posInf else .negInf
  | .negInf, .finite y => if 0 ≤ y then .negInf else .posInf
  | .posInf, .posInf => .nan
  | .posInf, .negInf => .nan
  | .negInf, .posInf => .nan
  | .negInf, .negInf => .nan

/-- The comparison `a <= b` of two doubles. -/
def F64.le : F64 → F64 → Prop
  | .finite x, .finite y => x ≤ y
  | .finite _, .posInf => True
  | .negInf, .finite _ => True
  | .negInf, .negInf => True
  | .negInf, .posInf => True
  | .posInf, .posInf => True
  | _, _ => False

/-- The comparison `a < b` of two doubles. -/
def F64.lt : F64 → F64 → Prop
  | .finite x, .finite y => x < y
  | .finite _, .posInf => True
  | .negInf, .finite _ => True
  | .negInf, .posInf => True
  | _, _ => False

/-! ## The arithmetic of the program in binary64 -/

/-- The value `total` that `StandardRide::computeFare` stores and returns for a ride of the
given distance, in binary64. -/
def Binary64.StandardRide.computeFare (distanceMiles : F64) : F64 :=
  let baseFare := F64.lit 1.5
  let perMile := F64.lit 1.8
  F64.add baseFare (F64.mul perMile distanceMiles)

/-- The value `total` that `PremiumRide::computeFare` stores and returns for a ride of the
given distance, in binary64. -/
def Binary64.PremiumRide.computeFare (distanceMiles : F64) : F64 :=
  let baseFare := F64.lit 4.0
  let perMile := F64.lit 3.2
  let luxuryFee := F64.lit 1.5
  F64.add (F64.add baseFare (F64.mul perMile distanceMiles)) luxuryFee

/-- The loop of `Driver::calculateTotalEarnings` in binary64, on the fare totals it reads from
the rides of the collection, in order. -/
def Binary64.Driver.calculateTotalEarnings (fareTotals : List F64) : F64 :=
  fareTotals.foldl (fun sum fare => F64.add sum fare) (F64.lit 0.0)

/-- The method `Rider::computeAverageFare` in binary64, on the fare totals it reads from the
rides of the history, in order. -/
def Binary64.Rider.computeAverageFare (fareTotals : List F64) : F64 :=
  if fareTotals.isEmpty then F64.lit 0.0
  else F64.div (fareTotals.foldl (fun sum fare => F64.add sum fare) (F64.lit 0.0))
    (F64.ofNat fareTotals.length)

/-- The fare totals that the fare loop of `main` stores on `ride1`, `ride2` and `ride3`, in
binary64. -/
def Binary64.mainFareTotals : List F64 :=
  [Binary64.StandardRide.computeFare (F64.lit 4.3),
   Binary64.PremiumRide.computeFare (F64.lit 12.0),
   Binary64.StandardRide.computeFare (F64.lit 3.1)]

/-! ## A sample state -/

/-- A standard ride of 10 miles whose fare has been computed. -/
def sampleStandard : RideObject :=
  .standard ((StandardRide.construct 1 "A" "B" 10).computeFare).2

/-- A premium ride of 5 miles whose fare has been computed. -/
def samplePremium : RideObject :=
  .premium ((PremiumRide.construct 2 "C" "D" 5).computeFare).2

/-- A heap holding the two sample rides. -/
def sampleHeap : Heap :=
  [some sampleStandard, some samplePremium]

/-- A standard ride of 10 miles on which `computeFare` has not been called. -/
def sampleFresh : RideObject :=
  .standard (StandardRide.construct 3 "E" "F" 10)

/-- A heap holding the fresh sample ride and the computed premium one. -/
def sampleFreshHeap : Heap :=
  [some sampleFresh, some samplePremium]

/-- A premium ride of 7 miles on which `computeFare` has not been called. -/
def sampleFreshPremium : RideObject :=
  .premium (PremiumRide.construct 4 "G" "H" 7)

/-- A heap holding two rides on which `computeFare` has not been called. -/
def sampleNewHeap : Heap :=
  [some sampleFresh, some sampleFreshPremium]

/-! ## Specification-side vocabulary -/

/-- The pointers `ps` designate, in order, the live objects `os` of the heap `h`. -/
def Heap.PointsTo (h : Heap) (ps : List RidePtr) (os : List RideObject) : Prop :=
  List.Forall₂ (fun p o => h.deref p = .ok o) ps os

/-- The fare totals currently stored on a list of ride objects. -/
def fareTotals (os : List RideObject) : List Double :=
  os.map RideObject.getFareTotal

/-- The ride object is as its constructor left it: `computeFare` has not been invoked on it. -/
def RideObject.NeverComputed (o : RideObject) : Prop :=
  ∃ (id : Int) (pickup dropoff : String) (dist : Double),
    o = .standard (StandardRide.construct id pickup dropoff dist)
      ∨ o = .premium (PremiumRide.construct id pickup dropoff dist)

/-- The two concrete classes of ride. -/
inductive Variant where
  | standard
  | premium
deriving DecidableEq, Repr

/-- The dynamic type of a ride object. -/
def RideObject.variant : RideObject → Variant
  | .standard _ => .standard
  | .premium _ => .premium

/-- A details line that opens with `tag` (the bracketed variant and the blanks after it) and
goes on with the fields of the ride. -/
def detailsLine (showDouble : Double → String) (tag : String) (r : Ride) : String :=
  tag ++ "Ride ID: " ++ toString r.rideId
    ++ " | From: " ++ r.pickupLocation
    ++ " | To: " ++ r.dropoffLocation
    ++ " | Distance: " ++ showDouble r.distanceMiles ++ " miles"
    ++ " | Fare: $" ++ showDouble r.fareTotal

/-- The details line in the format the specification gives,
`[<Variant>] Ride ID: <id> | From: <pickup> | To: <dropoff> | Distance: <d> miles | Fare: $<f>`:
one blank after the closing bracket. -/
def specRideDetails (showDouble : Double → String) (variant : String) (r : Ride) : String :=
  detailsLine showDouble ("[" ++ variant ++ "] ") r

/-! ## Lemmas on the heap -/

theorem Heap.deref_eq_ok {h : Heap} {p : RidePtr} {o : RideObject} :
    h.deref p = .ok o ↔ h[p]? = some (some o) := by
  unfold Heap.deref
  split
  · next o' heq => simp [heq]
  · next hne =>
    constructor
    · intro hc; cases hc
    · intro hc; exact absurd hc (hne o)

theorem Heap.deref_lt {h : Heap} {p : RidePtr} {o : RideObject} (hp : h.deref p = .ok o) :
    p < h.length := by
  rw [Heap.deref_eq_ok] at hp
  by_contra hge
  rw [List.getElem?_eq_none (Nat.le_of_not_lt hge)] at hp
  cases hp

theorem Heap.deref_store_self {h : Heap} {p : RidePtr} {o : RideObject} (o' : RideObject)
    (hp : h.deref p = .ok o) : (h.store p o').deref p = .ok o' := by
  rw [Heap.deref_eq_ok]
  simp [Heap.store, List.getElem?_set, Heap.deref_lt hp]

theorem Heap.deref_store_ne {h : Heap} {p q : RidePtr} (o' : RideObject) (hne : p ≠ q) :
    (h.store p o').deref q = h.deref q := by
  simp [Heap.deref, Heap.store, List.getElem?_set, hne]

theorem Heap.computeFare_eq {h : Heap} {p : RidePtr} {o : RideObject} (hp : h.deref p = .ok o) :
    h.computeFare p = .ok (o.computeFare.1, h.store p o.computeFare.2) := by
  simp [Heap.computeFare, hp, bind, Except.bind, pure, Except.pure]

theorem Heap.getFareTotal_eq {h : Heap} {p : RidePtr} {o : RideObject} (hp : h.deref p = .ok o) :
    h.getFareTotal p = .ok o.getFareTotal := by
  simp [Heap.getFareTotal, hp, bind, Except.bind, pure, Except.pure]

/-! ## Lemmas on the summation loop -/

/-- The loop shared by `calculateTotalEarnings` and `computeAverageFare`, started with `acc` in
`sum`, ends with `acc` plus the fare totals of the designated objects. -/
theorem foldlM_getFareTotal (h : Heap) (ps : List RidePtr) (os : List RideObject)
    (hpt : h.PointsTo ps os) (acc : Double) :
    ps.foldlM (fun sum ride => do
        let fare ← h.getFareTotal ride
        pure (sum + fare)) acc
      = (.ok (acc + (fareTotals os).sum) : Except Fault Double) := by
  induction hpt generalizing acc with
  | nil => simp [fareTotals, pure, Except.pure]
  | @cons p o ps' os' hp _ ih =>
    rw [List.foldlM_cons, Heap.getFareTotal_eq hp]
    show List.foldlM _ (acc + o.getFareTotal) ps' = _
    rw [ih]
    simp [fareTotals, add_assoc]

theorem Heap.PointsTo.length_eq {h : Heap} {ps : List RidePtr} {os : List RideObject}
    (hpt : h.PointsTo ps os) : ps.length = os.length :=
  List.Forall₂.length_eq hpt

theorem Driver.calculateTotalEarnings_eq {h : Heap} {d : Driver} {os : List RideObject}
    (hpt : h.PointsTo d.completedRides os) :
    d.calculateTotalEarnings h = .ok (fareTotals os).sum := by
  unfold Driver.calculateTotalEarnings
  rw [foldlM_getFareTotal h _ _ hpt]
  norm_num

theorem Rider.computeAverageFare_eq {h : Heap} {r : Rider} {os : List RideObject}
    (hpt : h.PointsTo r.rideHistory os) (hne : r.rideHistory ≠ []) :
    r.computeAverageFare h = .ok ((fareTotals os).sum / (r.rideHistory.length : Double)) := by
  have hlen : (r.rideHistory.length : Double) ≠ 0 := by
    simpa using hne
  unfold Rider.computeAverageFare
  rw [foldlM_getFareTotal h _ _ hpt]
  simp only [List.isEmpty_iff, hne, if_false, bind, Except.bind, pure, Except.pure, Double.div,
    hlen]
  norm_num

theorem computeAverageFare_empty (h : Heap) (r : Rider) (hnil : r.rideHistory = []) :
    r.computeAverageFare h = .ok 0 := by
  unfold Rider.computeAverageFare
  simp only [hnil, List.isEmpty_nil, if_true, bind, Except.bind, pure, Except.pure]
  norm_num

/-! ## Lemmas on attaching rides and on rewriting a ride in place -/

theorem Heap.PointsTo.append_one {h : Heap} {ps : List RidePtr} {os : List RideObject}
    {p : RidePtr} {o : RideObject} (hpt : h.PointsTo ps os) (hp : h.deref p = .ok o) :
    h.PointsTo (ps ++ [p]) (os ++ [o]) :=
  List.rel_append hpt (.cons hp .nil)

/-- Rewriting the object behind a live pointer keeps every pointer live; the designated objects
are the same ones when the rewritten pointer is not among them. -/
theorem Heap.PointsTo.store {h : Heap} {ps : List RidePtr} {os : List RideObject}
    {p : RidePtr} {o : RideObject} (o' : RideObject) (hp : h.deref p = .ok o)
    (hpt : h.PointsTo ps os) :
    ∃ os', (h.store p o').PointsTo ps os' ∧ (p ∉ ps → os' = os) := by
  induction hpt with
  | nil => exact ⟨[], .nil, fun _ => rfl⟩
  | @cons q x qs xs hq _ ih =>
    obtain ⟨xs', hxs', hsame⟩ := ih
    by_cases hqp : p = q
    · subst hqp
      exact ⟨o' :: xs', .cons (Heap.deref_store_self o' hp) hxs', fun hnot =>
        absurd (List.mem_cons_self _ _) hnot⟩
    · refine ⟨x :: xs', .cons ((Heap.deref_store_ne o' hqp).trans hq) hxs', fun hnot => ?_⟩
      rw [hsame (fun hmem => hnot (List.mem_cons_of_mem _ hmem))]

theorem Driver.completedRides_foldl (ps : List RidePtr) (d : Driver) :
    (ps.foldl Driver.addCompletedRide d).completedRides = d.completedRides ++ ps := by
  induction ps generalizing d with
  | nil => simp
  | cons p ps ih => simp [ih, Driver.addCompletedRide]

theorem Rider.rideHistory_foldl (ps : List RidePtr) (r : Rider) :
    (ps.foldl Rider.requestRide r).rideHistory = r.rideHistory ++ ps := by
  induction ps generalizing r with
  | nil => simp
  | cons p ps ih => simp [ih, Rider.requestRide]

theorem Rider.riderId_foldl (ps : List RidePtr) (r : Rider) :
    (ps.foldl Rider.requestRide r).riderId = r.riderId := by
  induction ps generalizing r with
  | nil => rfl
  | cons p ps ih => simp [ih, Rider.requestRide]

theorem Rider.riderName_foldl (ps : List RidePtr) (r : Rider) :
    (ps.foldl Rider.requestRide r).riderName = r.riderName := by
  induction ps generalizing r with
  | nil => rfl
  | cons p ps ih => simp [ih, Rider.requestRide]

/-! ## Lemmas on printing -/

theorem Heap.printRideDetails_eq (showDouble : Double → String) {h : Heap} {p : RidePtr}
    {o : RideObject} (hp : h.deref p = .ok o) :
    h.printRideDetails showDouble p = .ok (o.printRideDetails showDouble) := by
  simp [Heap.printRideDetails, hp, bind, Except.bind, pure, Except.pure]

/-- The loop of `printRideHistory`, started with the lines `out`, ends with `out` followed by
the details lines of the designated objects, in order. -/
theorem foldlM_printRideDetails (showDouble : Double → String) (h : Heap) (ps : List RidePtr)
    (os : List RideObject) (hpt : h.PointsTo ps os) (out : List String) :
    ps.foldlM (fun out ride => do
        let line ← h.printRideDetails showDouble ride
        pure (out ++ [line])) out
      = (.ok (out ++ os.map (RideObject.printRideDetails showDouble)) :
          Except Fault (List String)) := by
  induction hpt generalizing out with
  | nil => simp [pure, Except.pure]
  | @cons p o ps' os' hp _ ih =>
    rw [List.foldlM_cons, Heap.printRideDetails_eq showDouble hp]
    show List.foldlM _ (out ++ [o.printRideDetails showDouble]) ps' = _
    rw [ih]
    simp

/-- The `k`-th pointer of a live list designates the `k`-th object. -/
theorem Heap.PointsTo.getElem? {h : Heap} {ps : List RidePtr} {os : List RideObject}
    (hpt : h.PointsTo ps os) (k : Nat) (p : RidePtr) (hk : ps[k]? = some p) :
    ∃ o, os[k]? = some o ∧ h.deref p = .ok o := by
  induction hpt generalizing k with
  | nil => simp at hk
  | @cons q x qs xs hq _ ih =>
    cases k with
    | zero =>
      simp only [List.getElem?_cons_zero, Option.some.injEq] at hk
      subst hk
      exact ⟨x, by simp, hq⟩
    | succ k =>
      simp only [List.getElem?_cons_succ] at hk
      obtain ⟨o, ho, hp⟩ := ih k hk
      exact ⟨o, by simpa using ho, hp⟩

/-! ## Lemmas on allocation -/

theorem Heap.deref_new (h : Heap) (o : RideObject) :
    (h.new o).2.deref (h.new o).1 = .ok o := by
  rw [Heap.deref_eq_ok]
  simp [Heap.new]

/-! ## Lemmas on binary64 rounding -/

theorem log2Aux_spec (fuel n : Nat) (hn : 0 < n) (hfuel : n ≤ fuel) :
    2 ^ log2Aux fuel n ≤ n ∧ n < 2 ^ (log2Aux fuel n + 1) := by
  induction fuel generalizing n with
  | zero => omega
  | succ fuel ih =>
    unfold log2Aux
    by_cases h2 : n < 2
    · simp only [h2, if_true]
      constructor <;> omega
    · simp only [h2, if_false]
      have hhalf : 0 < n / 2 := by omega
      have hle : n / 2 ≤ fuel := by omega
      obtain ⟨hlo, hhi⟩ := ih (n / 2) hhalf hle
      constructor
      · rw [pow_succ]
        omega
      · rw [pow_succ]
        omega

theorem natLog2_spec (n : Nat) (hn : 0 < n) :
    2 ^ natLog2 n ≤ n ∧ n < 2 ^ (natLog2 n + 1) :=
  log2Aux_spec n n hn (le_refl n)

theorem pow2_bracket_div (N D : ℚ) (a b : ℕ) (hD : 0 < D) (hNlo : (2 : ℚ) ^ a ≤ N)
    (hNhi : N < (2 : ℚ) ^ (a + 1)) (hDlo : (2 : ℚ) ^ b ≤ D) (hDhi : D < (2 : ℚ) ^ (b + 1)) :
    (2 : ℚ) ^ ((a : ℤ) - (b : ℤ) - 1) ≤ N / D ∧ N / D < (2 : ℚ) ^ ((a : ℤ) - (b : ℤ) + 1) := by
  have h2 : (0 : ℚ) < 2 := by norm_num
  have hpa : (0 : ℚ) < (2 : ℚ) ^ a := pow_pos h2 _
  have hpb : (0 : ℚ) < (2 : ℚ) ^ b := pow_pos h2 _
  have hpb1 : (0 : ℚ) < (2 : ℚ) ^ (b + 1) := pow_pos h2 _
  have hN : 0 < N := lt_of_lt_of_le hpa hNlo
  constructor
  · have hz : (2 : ℚ) ^ ((a : ℤ) - (b : ℤ) - 1) = (2 : ℚ) ^ a / (2 : ℚ) ^ (b + 1) := by
      rw [show ((a : ℤ) - (b : ℤ) - 1) = ((a : ℕ) : ℤ) - ((b + 1 : ℕ) : ℤ) by push_cast; ring]
      rw [zpow_sub₀ (ne_of_gt h2), zpow_natCast, zpow_natCast]
    rw [hz, div_le_div_iff₀ hpb1 hD]
    calc (2 : ℚ) ^ a * D ≤ N * D := mul_le_mul_of_nonneg_right hNlo (le_of_lt hD)
      _ ≤ N * (2 : ℚ) ^ (b + 1) := mul_le_mul_of_nonneg_left (le_of_lt hDhi) (le_of_lt hN)
  · have hz : (2 : ℚ) ^ ((a : ℤ) - (b : ℤ) + 1) = (2 : ℚ) ^ (a + 1) / (2 : ℚ) ^ b := by
      rw [show ((a : ℤ) - (b : ℤ) + 1) = ((a + 1 : ℕ) : ℤ) - ((b : ℕ) : ℤ) by push_cast; ring]
      rw [zpow_sub₀ (ne_of_gt h2), zpow_natCast, zpow_natCast]
    rw [hz, div_lt_div_iff₀ hD hpb]
    calc N * (2 : ℚ) ^ b ≤ N * D := mul_le_mul_of_nonneg_left hDlo (le_of_lt hN)
      _ < (2 : ℚ) ^ (a + 1) * D := mul_lt_mul_of_pos_right hNhi hD

/-- The exponent brackets a positive rational between two consecutive powers of two. -/
theorem expOf_spec (q : ℚ) (hq : 0 < q) :
    (2 : ℚ) ^ expOf q ≤ q ∧ q < (2 : ℚ) ^ (expOf q + 1) := by
  have hnum : 0 < q.num := Rat.num_pos.mpr hq
  have hn : 0 < q.num.natAbs := Int.natAbs_pos.mpr (ne_of_gt hnum)
  have hd : 0 < q.den := q.den_pos
  obtain ⟨hnlo, hnhi⟩ := natLog2_spec q.num.natAbs hn
  obtain ⟨hdlo, hdhi⟩ := natLog2_spec q.den hd
  have hcast : ((q.num.natAbs : ℕ) : ℚ) = (q.num : ℚ) := by
    rw [Nat.cast_natAbs, abs_of_pos hnum]
  have hqeq : (q.num.natAbs : ℚ) / (q.den : ℚ) = q := by
    rw [hcast]
    exact Rat.num_div_den q
  have hbr := pow2_bracket_div (q.num.natAbs : ℚ) (q.den : ℚ) (natLog2 q.num.natAbs)
    (natLog2 q.den) (by exact_mod_cast hd) (by exact_mod_cast hnlo) (by exact_mod_cast hnhi)
    (by exact_mod_cast hdlo) (by exact_mod_cast hdhi)
  rw [hqeq] at hbr
  obtain ⟨hlower, hupper⟩ := hbr
  unfold expOf
  simp only [abs_of_pos hq]
  split
  · next hle => exact ⟨hle, hupper⟩
  · next hnle =>
    refine ⟨hlower, ?_⟩
    rw [sub_add_cancel]
    exact lt_of_not_le hnle

theorem roundHalfEven_intCast (k : ℤ) : roundHalfEven (k : ℚ) = k := by
  unfold roundHalfEven
  simp

theorem roundHalfEven_intCast_zero : roundHalfEven 0 = 0 := by
  have := roundHalfEven_intCast 0
  simpa using this

theorem roundHalfEven_sub_le (m : ℚ) : (roundHalfEven m : ℚ) - m ≤ 1 / 2 := by
  have hfl : (⌊m⌋ : ℚ) ≤ m := Int.floor_le m
  have hfu : m < (⌊m⌋ : ℚ) + 1 := Int.lt_floor_add_one m
  unfold roundHalfEven
  split
  · linarith
  · next h1 =>
    split
    · push_cast
      linarith
    · next h2 =>
      have heq : m - ⌊m⌋ = 1 / 2 := le_antisymm (not_lt.mp h2) (not_lt.mp h1)
      split
      · linarith
      · push_cast
        linarith

theorem sub_roundHalfEven_le (m : ℚ) : m - (roundHalfEven m : ℚ) ≤ 1 / 2 := by
  have hfl : (⌊m⌋ : ℚ) ≤ m := Int.floor_le m
  have hfu : m < (⌊m⌋ : ℚ) + 1 := Int.lt_floor_add_one m
  unfold roundHalfEven
  split
  · linarith
  · next h1 =>
    split
    · push_cast
      linarith
    · next h2 =>
      have heq : m - ⌊m⌋ = 1 / 2 := le_antisymm (not_lt.mp h2) (not_lt.mp h1)
      split
      · linarith
      · push_cast
        linarith

theorem roundHalfEven_mono {m m' : ℚ} (h : m ≤ m') : roundHalfEven m ≤ roundHalfEven m' := by
  by_contra hlt
  have hlt' : roundHalfEven m' + 1 ≤ roundHalfEven m := by omega
  have hq : (roundHalfEven m' : ℚ) + 1 ≤ (roundHalfEven m : ℚ) := by exact_mod_cast hlt'
  have h1 := roundHalfEven_sub_le m
  have h2 := sub_roundHalfEven_le m'
  have hmm : m = m' := by linarith
  subst hmm
  omega

theorem ulpOf_pos (q : ℚ) : 0 < ulpOf q :=
  zpow_pos (by norm_num) _

theorem roundVal_sub_le (q : ℚ) : roundVal q - q ≤ ulpOf q / 2 := by
  have hU := ulpOf_pos q
  have h := roundHalfEven_sub_le (q / ulpOf q)
  have hq : q = q / ulpOf q * ulpOf q := by
    field_simp
  unfold roundVal
  calc (roundHalfEven (q / ulpOf q) : ℚ) * ulpOf q - q
      = ((roundHalfEven (q / ulpOf q) : ℚ) - q / ulpOf q) * ulpOf q := by
        rw [sub_mul, ← hq]
    _ ≤ 1 / 2 * ulpOf q := mul_le_mul_of_nonneg_right h (le_of_lt hU)
    _ = ulpOf q / 2 := by ring

theorem sub_roundVal_le (q : ℚ) : q - roundVal q ≤ ulpOf q / 2 := by
  have hU := ulpOf_pos q
  have h := sub_roundHalfEven_le (q / ulpOf q)
  have hq : q = q / ulpOf q * ulpOf q := by
    field_simp
  unfold roundVal
  calc q - (roundHalfEven (q / ulpOf q) : ℚ) * ulpOf q
      = (q / ulpOf q - (roundHalfEven (q / ulpOf q) : ℚ)) * ulpOf q := by
        rw [sub_mul, ← hq]
    _ ≤ 1 / 2 * ulpOf q := mul_le_mul_of_nonneg_right h (le_of_lt hU)
    _ = ulpOf q / 2 := by ring

/-- In the normal range the spacing is at most `2 ^ (-52)` times the number. -/
theorem ulpOf_le_of_normal (q : ℚ) (hq : (2 : ℚ) ^ (-1022 : ℤ) ≤ q) :
    ulpOf q ≤ q * (2 : ℚ) ^ (-52 : ℤ) := by
  have hpos : 0 < q := lt_of_lt_of_le (zpow_pos (by norm_num) _) hq
  obtain ⟨hlo, hhi⟩ := expOf_spec q hpos
  have hlt : (2 : ℚ) ^ (-1022 : ℤ) < (2 : ℚ) ^ (expOf q + 1) := lt_of_le_of_lt hq hhi
  have he : (-1022 : ℤ) < expOf q + 1 := (zpow_lt_zpow_iff_right₀ (by norm_num)).mp hlt
  have hmax : max (expOf q) (-1022) = expOf q := max_eq_left (by omega)
  unfold ulpOf
  rw [hmax, sub_eq_add_neg, zpow_add₀ (by norm_num)]
  exact mul_le_mul_of_nonneg_right hlo (le_of_lt (zpow_pos (by norm_num) _))

/-- The relative error of rounding in the normal range is at most `2 ^ (-53)`. -/
theorem roundVal_rel (q : ℚ) (hq : (2 : ℚ) ^ (-1022 : ℤ) ≤ q) :
    q - q * (2 : ℚ) ^ (-53 : ℤ) ≤ roundVal q ∧ roundVal q ≤ q + q * (2 : ℚ) ^ (-53 : ℤ) := by
  have hU := ulpOf_le_of_normal q hq
  have h1 := roundVal_sub_le q
  have h2 := sub_roundVal_le q
  have h53 : (2 : ℚ) ^ (-53 : ℤ) = (2 : ℚ) ^ (-52 : ℤ) / 2 := by
    norm_num
  rw [h53]
  clear hq h53
  generalize (2 : ℚ) ^ (-52 : ℤ) = c at hU ⊢
  generalize ulpOf q = u at hU h1 h2
  generalize roundVal q = r at h1 h2 ⊢
  constructor <;> linarith

theorem roundVal_zero : roundVal 0 = 0 := by
  unfold roundVal
  rw [zero_div, roundHalfEven_intCast_zero]
  simp

theorem roundVal_nonneg (q : ℚ) (hq : 0 ≤ q) : 0 ≤ roundVal q := by
  have hU := ulpOf_pos q
  have h0 : roundHalfEven 0 ≤ roundHalfEven (q / ulpOf q) :=
    roundHalfEven_mono (div_nonneg hq (le_of_lt hU))
  rw [roundHalfEven_intCast_zero] at h0
  unfold roundVal
  exact mul_nonneg (by exact_mod_cast h0) (le_of_lt hU)

/-- Rounding is monotone on the non-negative rationals. -/
theorem roundVal_mono (x y : ℚ) (hx : 0 ≤ x) (hxy : x ≤ y) : roundVal x ≤ roundVal y := by
  rcases eq_or_lt_of_le hx with hx0 | hxpos
  · rw [← hx0, roundVal_zero]
    exact roundVal_nonneg y (le_trans hx hxy)
  have hypos : 0 < y := lt_of_lt_of_le hxpos hxy
  obtain ⟨hxlo, hxhi⟩ := expOf_spec x hxpos
  obtain ⟨hylo, hyhi⟩ := expOf_spec y hypos
  have h2 : (1 : ℚ) < 2 := by norm_num
  have hexp : expOf x ≤ expOf y := by
    have hlt : (2 : ℚ) ^ expOf x < (2 : ℚ) ^ (expOf y + 1) :=
      lt_of_le_of_lt hxlo (lt_of_le_of_lt hxy hyhi)
    have := (zpow_lt_zpow_iff_right₀ h2).mp hlt
    omega
  have hE : max (expOf x) (-1022) ≤ max (expOf y) (-1022) := max_le_max hexp (le_refl _)
  rcases eq_or_lt_of_le hE with heq | hlt
  · -- the same spacing
    have hU : ulpOf x = ulpOf y := by
      unfold ulpOf
      rw [heq]
    have hUy := ulpOf_pos y
    unfold roundVal
    rw [hU]
    apply mul_le_mul_of_nonneg_right _ (le_of_lt hUy)
    have : roundHalfEven (x / ulpOf y) ≤ roundHalfEven (y / ulpOf y) :=
      roundHalfEven_mono (div_le_div_of_nonneg_right hxy (le_of_lt hUy))
    exact_mod_cast this
  · -- `y` lies in a higher binade
    have hEy : max (expOf y) (-1022) = expOf y := by
      rcases le_total (expOf y) (-1022) with h | h
      · rw [max_eq_right h] at hlt
        have := le_max_right (expOf x) (-1022)
        omega
      · exact max_eq_left h
    have hUx := ulpOf_pos x
    have hUy := ulpOf_pos y
    -- `roundVal x ≤ 2 ^ (E x + 1)`
    have hxtop : x < (2 : ℚ) ^ (max (expOf x) (-1022) + 1) :=
      lt_of_lt_of_le hxhi (zpow_le_zpow_right₀ (le_of_lt h2) (by
        have := le_max_left (expOf x) (-1022)
        omega))
    have hxdiv : x / ulpOf x ≤ ((2 ^ 53 : ℤ) : ℚ) := by
      rw [div_le_iff₀ hUx]
      have : ((2 ^ 53 : ℤ) : ℚ) * ulpOf x = (2 : ℚ) ^ (max (expOf x) (-1022) + 1) := by
        unfold ulpOf
        rw [show max (expOf x) (-1022) + 1 = (53 : ℤ) + (max (expOf x) (-1022) - 52) by ring,
          zpow_add₀ (by norm_num)]
        norm_num
      rw [this]
      exact le_of_lt hxtop
    have hxr : roundHalfEven (x / ulpOf x) ≤ 2 ^ 53 := by
      have := roundHalfEven_mono hxdiv
      rwa [roundHalfEven_intCast] at this
    have hxval : roundVal x ≤ (2 : ℚ) ^ (max (expOf x) (-1022) + 1) := by
      have h1 : roundVal x ≤ ((2 ^ 53 : ℤ) : ℚ) * ulpOf x := by
        unfold roundVal
        exact mul_le_mul_of_nonneg_right (by exact_mod_cast hxr) (le_of_lt hUx)
      have : ((2 ^ 53 : ℤ) : ℚ) * ulpOf x = (2 : ℚ) ^ (max (expOf x) (-1022) + 1) := by
        unfold ulpOf
        rw [show max (expOf x) (-1022) + 1 = (53 : ℤ) + (max (expOf x) (-1022) - 52) by ring,
          zpow_add₀ (by norm_num)]
        norm_num
      rw [this] at h1
      exact h1
    -- `2 ^ (expOf y) ≤ roundVal y`
    have hydiv : ((2 ^ 52 : ℤ) : ℚ) ≤ y / ulpOf y := by
      rw [le_div_iff₀ hUy]
      have : ((2 ^ 52 : ℤ) : ℚ) * ulpOf y = (2 : ℚ) ^ expOf y := by
        unfold ulpOf
        rw [hEy, show expOf y = (52 : ℤ) + (expOf y - 52) by ring, zpow_add₀ (by norm_num)]
        norm_num
      rw [this]
      exact hylo
    have hyr : 2 ^ 52 ≤ roundHalfEven (y / ulpOf y) := by
      have := roundHalfEven_mono hydiv
      rwa [roundHalfEven_intCast] at this
    have hyval : (2 : ℚ) ^ expOf y ≤ roundVal y := by
      have h1 : ((2 ^ 52 : ℤ) : ℚ) * ulpOf y ≤ roundVal y := by
        unfold roundVal
        exact mul_le_mul_of_nonneg_right (by exact_mod_cast hyr) (le_of_lt hUy)
      have : ((2 ^ 52 : ℤ) : ℚ) * ulpOf y = (2 : ℚ) ^ expOf y := by
        unfold ulpOf
        rw [hEy, show expOf y = (52 : ℤ) + (expOf y - 52) by ring, zpow_add₀ (by norm_num)]
        norm_num
      rw [this] at h1
      exact h1
    have hmid : (2 : ℚ) ^ (max (expOf x) (-1022) + 1) ≤ (2 : ℚ) ^ expOf y :=
      zpow_le_zpow_right₀ (le_of_lt h2) (by rw [hEy] at hlt; omega)
    linarith

/-- The rounding of a non-negative exact result: an overflow to `+inf`, or the rounded value. -/
theorem F64.round_of_nonneg (x : ℚ) (hx : 0 ≤ x) :
    F64.round x = if (2 : ℚ) ^ (1024 : ℤ) ≤ roundVal x then .posInf else .finite (roundVal x) := by
  have h0 := roundVal_nonneg x hx
  have hT : (0 : ℚ) < (2 : ℚ) ^ (1024 : ℤ) := zpow_pos (by norm_num) _
  unfold F64.round
  split
  · rfl
  · rw [if_neg]
    intro hneg
    linarith

/-- A coarse bound on the rounding error of a non-negative number, with room to spare. -/
theorem roundVal_coarse (x : ℚ) (hx : 0 ≤ x) :
    x - x / 1000 - 1 / 1000 ≤ roundVal x ∧ roundVal x ≤ x + x / 1000 + 1 / 1000 := by
  rcases le_or_lt ((2 : ℚ) ^ (-1022 : ℤ)) x with hnormal | hsub
  · obtain ⟨hlo, hhi⟩ := roundVal_rel x hnormal
    have hu : x * (2 : ℚ) ^ (-53 : ℤ) ≤ x / 1000 := by
      rw [div_eq_mul_inv]
      apply mul_le_mul_of_nonneg_left _ hx
      norm_num
    clear hnormal
    generalize x * (2 : ℚ) ^ (-53 : ℤ) = t at hlo hhi hu
    constructor <;> linarith
  · have hU : ulpOf x ≤ 1 / 1000 := by
      rcases eq_or_lt_of_le hx with hx0 | hxpos
      · rw [← hx0]
        decide!
      · obtain ⟨hlo, hhi⟩ := expOf_spec x hxpos
        have hlt : (2 : ℚ) ^ expOf x < (2 : ℚ) ^ (-1022 : ℤ) := lt_of_le_of_lt hlo hsub
        have he : expOf x < -1022 := (zpow_lt_zpow_iff_right₀ (by norm_num)).mp hlt
        have hmax : max (expOf x) (-1022) = -1022 := max_eq_right (le_of_lt he)
        unfold ulpOf
        rw [hmax]
        norm_num
    have h1 := roundVal_sub_le x
    have h2 := sub_roundVal_le x
    have hx1 : 0 ≤ x / 1000 := by positivity
    clear hsub
    constructor <;> linarith

/-! ## Lemmas on the binary64 fares and on the binary64 summation loop -/

theorem F64.lit_values :
    F64.lit 1.5 = .finite (3 / 2) ∧ F64.lit 1.8 = .finite (8106479329266893 / 4503599627370496)
      ∧ F64.lit 4.0 = .finite 4 ∧ F64.lit 3.2 = .finite (3602879701896397 / 1125899906842624)
      ∧ F64.lit 5.5 = .finite (11 / 2) ∧ F64.lit 0.0 = .finite 0 := by
  decide!

theorem roundVal_values :
    roundVal 1 = 1 ∧ roundVal (3 / 2) = 3 / 2 ∧ roundVal 4 = 4 ∧ roundVal (11 / 2) = 11 / 2
      ∧ roundVal ((2 : ℚ) ^ (64 : ℤ)) = (2 : ℚ) ^ (64 : ℤ) := by
  decide!

theorem F64.add_finite_finite (x y : ℚ) :
    F64.add (.finite x) (.finite y) = F64.round (x + y) :=
  rfl

theorem F64.add_finite_posInf (x : ℚ) : F64.add (.finite x) .posInf = .posInf :=
  rfl

theorem F64.add_posInf_finite (y : ℚ) : F64.add .posInf (.finite y) = .posInf :=
  rfl

theorem F64.mul_finite_finite (x y : ℚ) :
    F64.mul (.finite x) (.finite y) = F64.round (x * y) :=
  rfl

theorem F64.le_ite (P Q : Prop) [Decidable P] [Decidable Q] (x y : ℚ) (hPQ : ¬Q → ¬P)
    (hxy : ¬Q → x ≤ y) :
    F64.le (if P then .posInf else .finite x) (if Q then .posInf else .finite y) := by
  by_cases hQ : Q
  · by_cases hP : P <;> simp [hQ, hP, F64.le]
  · simp only [hQ, hPQ hQ, if_false, F64.le]
    exact hxy hQ

theorem F64.lt_ite (P Q : Prop) [Decidable P] [Decidable Q] (x y : ℚ) (hPQ : ¬Q → ¬P)
    (hxy : ¬Q → x < y)
    (hfin : (if Q then F64.posInf else F64.finite y) ≠ .posInf) :
    F64.lt (if P then .posInf else .finite x) (if Q then .posInf else .finite y) := by
  by_cases hQ : Q
  · simp [hQ] at hfin
  · simp only [hQ, hPQ hQ, if_false, F64.lt]
    exact hxy hQ

theorem F64.finite_le_ite (Q : Prop) [Decidable Q] (x y : ℚ) (hxy : x ≤ y) :
    F64.le (.finite x) (if Q then .posInf else .finite y) := by
  by_cases hQ : Q <;> simp [hQ, F64.le, hxy]

/-- The standard fare of a non-negative distance, step by step. -/
theorem Binary64.StandardRide.computeFare_standard_of_nonneg (d : ℚ) (hd : 0 ≤ d) :
    Binary64.StandardRide.computeFare (.finite d)
      = if (2 : ℚ) ^ (1024 : ℤ) ≤ roundVal (8106479329266893 / 4503599627370496 * d)
            ∨ (2 : ℚ) ^ (1024 : ℤ)
              ≤ roundVal (3 / 2 + roundVal (8106479329266893 / 4503599627370496 * d))
          then .posInf
        else .finite (roundVal (3 / 2 + roundVal (8106479329266893 / 4503599627370496 * d))) := by
  have hA : (0 : ℚ) ≤ 8106479329266893 / 4503599627370496 * d := by positivity
  have ha := roundVal_nonneg _ hA
  unfold Binary64.StandardRide.computeFare
  simp only [F64.lit_values.1, F64.lit_values.2.1, F64.mul_finite_finite]
  rw [F64.round_of_nonneg _ hA]
  by_cases h1 : (2 : ℚ) ^ (1024 : ℤ) ≤ roundVal (8106479329266893 / 4503599627370496 * d)
  · simp only [h1, if_true, F64.add_finite_posInf, true_or]
  · simp only [h1, if_false, F64.add_finite_finite, false_or]
    rw [F64.round_of_nonneg _ (by linarith)]

/-- The premium fare of a non-negative distance, step by step. -/
theorem Binary64.PremiumRide.computeFare_premium_of_nonneg (d : ℚ) (hd : 0 ≤ d) :
    Binary64.PremiumRide.computeFare (.finite d)
      = if (2 : ℚ) ^ (1024 : ℤ) ≤ roundVal (3602879701896397 / 1125899906842624 * d)
            ∨ (2 : ℚ) ^ (1024 : ℤ)
              ≤ roundVal (4 + roundVal (3602879701896397 / 1125899906842624 * d))
            ∨ (2 : ℚ) ^ (1024 : ℤ) ≤ roundVal
              (roundVal (4 + roundVal (3602879701896397 / 1125899906842624 * d)) + 3 / 2)
          then .posInf
        else .finite
          (roundVal (roundVal (4 + roundVal (3602879701896397 / 1125899906842624 * d)) + 3 / 2)) := by
  have hB : (0 : ℚ) ≤ 3602879701896397 / 1125899906842624 * d := by positivity
  have hb := roundVal_nonneg _ hB
  have hc := roundVal_nonneg (4 + roundVal (3602879701896397 / 1125899906842624 * d))
    (by linarith)
  unfold Binary64.PremiumRide.computeFare
  simp only [F64.lit_values.1, F64.lit_values.2.2.1, F64.lit_values.2.2.2.1,
    F64.mul_finite_finite]
  rw [F64.round_of_nonneg _ hB]
  by_cases h1 : (2 : ℚ) ^ (1024 : ℤ) ≤ roundVal (3602879701896397 / 1125899906842624 * d)
  · simp only [h1, if_true, F64.add_finite_posInf, F64.add_posInf_finite, true_or]
  · simp only [h1, if_false, F64.add_finite_finite, false_or]
    rw [F64.round_of_nonneg _ (by linarith)]
    by_cases h2 : (2 : ℚ) ^ (1024 : ℤ)
        ≤ roundVal (4 + roundVal (3602879701896397 / 1125899906842624 * d))
    · simp only [h2, if_true, F64.add_posInf_finite, true_or]
    · simp only [h2, if_false, F64.add_finite_finite, false_or]
      rw [F64.round_of_nonneg _ (by linarith)]

/-- The roundings inside the two fares of a non-negative distance `d`: the per-mile parts `a`
and `b`, the standard fare `s`, the premium subtotal `c` and the premium fare `p`. -/
theorem fare_roundings (d : ℚ) (hd : 0 ≤ d) :
    0 ≤ roundVal (8106479329266893 / 4503599627370496 * d)
      ∧ roundVal (8106479329266893 / 4503599627370496 * d)
          ≤ roundVal (3602879701896397 / 1125899906842624 * d)
      ∧ 3 / 2 ≤ roundVal (3 / 2 + roundVal (8106479329266893 / 4503599627370496 * d))
      ∧ 4 ≤ roundVal (4 + roundVal (3602879701896397 / 1125899906842624 * d))
      ∧ 11 / 2
          ≤ roundVal (roundVal (4 + roundVal (3602879701896397 / 1125899906842624 * d)) + 3 / 2)
      ∧ roundVal (3 / 2 + roundVal (8106479329266893 / 4503599627370496 * d))
          < roundVal (roundVal (4 + roundVal (3602879701896397 / 1125899906842624 * d)) + 3 / 2) := by
  have hA : (0 : ℚ) ≤ 8106479329266893 / 4503599627370496 * d := by positivity
  have hB : (0 : ℚ) ≤ 3602879701896397 / 1125899906842624 * d := by positivity
  have ha := roundVal_nonneg _ hA
  have hb := roundVal_nonneg _ hB
  have hc := roundVal_nonneg (4 + roundVal (3602879701896397 / 1125899906842624 * d))
    (by linarith)
  have ea := roundVal_coarse _ hA
  have eb := roundVal_coarse _ hB
  have es := roundVal_coarse (3 / 2 + roundVal (8106479329266893 / 4503599627370496 * d))
    (by linarith)
  have ec := roundVal_coarse (4 + roundVal (3602879701896397 / 1125899906842624 * d))
    (by linarith)
  have ep := roundVal_coarse
    (roundVal (4 + roundVal (3602879701896397 / 1125899906842624 * d)) + 3 / 2) (by linarith)
  have hs15 : (3 / 2 : ℚ)
      ≤ roundVal (3 / 2 + roundVal (8106479329266893 / 4503599627370496 * d)) := by
    have := roundVal_mono (3 / 2) (3 / 2 + roundVal (8106479329266893 / 4503599627370496 * d))
      (by norm_num) (by linarith)
    rwa [roundVal_values.2.1] at this
  have hc4 : (4 : ℚ) ≤ roundVal (4 + roundVal (3602879701896397 / 1125899906842624 * d)) := by
    have := roundVal_mono 4 (4 + roundVal (3602879701896397 / 1125899906842624 * d))
      (by norm_num) (by linarith)
    rwa [roundVal_values.2.2.1] at this
  have hp55 : (11 / 2 : ℚ)
      ≤ roundVal (roundVal (4 + roundVal (3602879701896397 / 1125899906842624 * d)) + 3 / 2) := by
    have := roundVal_mono (11 / 2)
      (roundVal (4 + roundVal (3602879701896397 / 1125899906842624 * d)) + 3 / 2)
      (by norm_num) (by linarith)
    rwa [roundVal_values.2.2.2.1] at this
  have hab : roundVal (8106479329266893 / 4503599627370496 * d)
      ≤ roundVal (3602879701896397 / 1125899906842624 * d) :=
    roundVal_mono _ _ hA (by linarith)
  refine ⟨ha, hab, hs15, hc4, hp55, ?_⟩
  generalize roundVal (3 / 2 + roundVal (8106479329266893 / 4503599627370496 * d)) = s at *
  generalize roundVal (roundVal (4 + roundVal (3602879701896397 / 1125899906842624 * d))
    + 3 / 2) = p at *
  generalize roundVal (4 + roundVal (3602879701896397 / 1125899906842624 * d)) = c at *
  generalize roundVal (3602879701896397 / 1125899906842624 * d) = b at *
  generalize roundVal (8106479329266893 / 4503599627370496 * d) = a at *
  linarith [ea.1, ea.2, eb.1, eb.2, es.1, es.2, ec.1, ec.2, ep.1, ep.2]

/-- C1: `StandardRide::computeFare` returns exactly `1.5 + 1.8 * d` on a standard ride constructed
with distance `d`, whatever its id, pickup and dropoff; this holds for every `d`, in particular
for every non-negative one, and also when the call is dispatched virtually. -/
theorem standardRide_computeFare_formula (id : Int) (pickup dropoff : String) (d : Double) :
    ((StandardRide.construct id pickup dropoff d).computeFare).1 = 1.5 + 1.8 * d
      ∧ ((RideObject.standard (StandardRide.construct id pickup dropoff d)).computeFare).1
          = 1.5 + 1.8 * d := by
  constructor <;> rfl

/-- C3: for a ride object of either class behind a live pointer, the call `p->computeFare()`
returns, and the value it returns is the fare total stored on the ride afterwards: a following
`p->getFareTotal()` yields the call's result. -/
theorem computeFare_result_is_stored_fareTotal (h : Heap) (p : RidePtr) (o : RideObject)
    (hp : h.deref p = .ok o) :
    ∃ total h', h.computeFare p = .ok (total, h') ∧ h'.getFareTotal p = .ok total := by
  refine ⟨o.computeFare.1, h.store p o.computeFare.2, Heap.computeFare_eq hp, ?_⟩
  rw [Heap.getFareTotal_eq (Heap.deref_store_self _ hp)]
  cases o <;> rfl

theorem computeFare_result_is_stored_fareTotal_witness :
    Heap.deref [some (.premium (PremiumRide.construct 7 "A" "B" 10))] 0
        = .ok (.premium (PremiumRide.construct 7 "A" "B" 10))
      ∧ ∃ total h', Heap.computeFare [some (.premium (PremiumRide.construct 7 "A" "B" 10))] 0
        = .ok (total, h') ∧ h'.getFareTotal 0 = .ok total :=
  ⟨rfl, computeFare_result_is_stored_fareTotal
    [some (.premium (PremiumRide.construct 7 "A" "B" 10))] 0
    (.premium (PremiumRide.construct 7 "A" "B" 10)) rfl⟩

/-- C4: `computeFare` is idempotent for both classes: on a live pointer the first call returns a
value `total` and leaves a heap `h'`, and a second call on `h'` returns the same `total` and
leaves exactly `h'`, so the ride (its stored fare total included) is as the first call left
it. -/
theorem computeFare_idempotent (h : Heap) (p : RidePtr) (o : RideObject)
    (hp : h.deref p = .ok o) :
    ∃ total h', h.computeFare p = .ok (total, h') ∧ h'.computeFare p = .ok (total, h') := by
  refine ⟨o.computeFare.1, h.store p o.computeFare.2, Heap.computeFare_eq hp, ?_⟩
  rw [Heap.computeFare_eq (Heap.deref_store_self _ hp)]
  have hval : o.computeFare.2.computeFare = o.computeFare := by
    cases o <;> rfl
  rw [hval]
  simp [Heap.store]

theorem computeFare_idempotent_witness :
    Heap.deref [some (.standard (StandardRide.construct 1 "A" "B" 2))] 0
        = .ok (.standard (StandardRide.construct 1 "A" "B" 2))
      ∧ ∃ total h', Heap.computeFare [some (.standard (StandardRide.construct 1 "A" "B" 2))] 0
        = .ok (total, h') ∧ h'.computeFare 0 = .ok (total, h') :=
  ⟨rfl, computeFare_idempotent [some (.standard (StandardRide.construct 1 "A" "B" 2))] 0
    (.standard (StandardRide.construct 1 "A" "B" 2)) rfl⟩

/-! ## Aggregates -/

/-- C8, as the code has it: when the same non-empty list `ps` of `n` ride pointers is attached,
in the same order, to a newly constructed driver (with `addCompletedRide`) and to a newly
constructed rider (with `requestRide`), then in every heap in which these pointers are live both
statistics are defined and read the same fare totals: `computeAverageFare()` is
`calculateTotalEarnings()` divided by `n`.  This is still so in the heap left by recomputing the
fare of any live ride `q`, and it holds in binary64 for every non-empty list of fare totals. -/
theorem driver_and_rider_share_fare_totals (ps : List RidePtr) (did rid : Int)
    (dname rname : String) (rating : Double) (h : Heap) (os : List RideObject)
    (hne : ps ≠ []) (hpt : h.PointsTo ps os) :
    (∃ total,
        (ps.foldl Driver.addCompletedRide
            (Driver.construct did dname rating)).calculateTotalEarnings h = .ok total
        ∧ (ps.foldl Rider.requestRide (Rider.construct rid rname)).computeAverageFare h
            = .ok (total / (ps.length : Double)))
      ∧ (∀ q o, h.deref q = .ok o → ∃ fare h' total,
        h.computeFare q = .ok (fare, h')
        ∧ (ps.foldl Driver.addCompletedRide
            (Driver.construct did dname rating)).calculateTotalEarnings h' = .ok total
        ∧ (ps.foldl Rider.requestRide (Rider.construct rid rname)).computeAverageFare h'
            = .ok (total / (ps.length : Double)))
      ∧ ∀ fares : List F64, fares ≠ [] → Binary64.Rider.computeAverageFare fares
          = F64.div (Binary64.Driver.calculateTotalEarnings fares) (F64.ofNat fares.length) := by
  have hr : (ps.foldl Rider.requestRide (Rider.construct rid rname)).rideHistory = ps := by
    simp [Rider.rideHistory_foldl, Rider.construct]
  have hd : (ps.foldl Driver.addCompletedRide
      (Driver.construct did dname rating)).completedRides = ps := by
    simp [Driver.completedRides_foldl, Driver.construct]
  have key : ∀ (g : Heap) (xs : List RideObject), g.PointsTo ps xs → ∃ total,
      (ps.foldl Driver.addCompletedRide
          (Driver.construct did dname rating)).calculateTotalEarnings g = .ok total
      ∧ (ps.foldl Rider.requestRide (Rider.construct rid rname)).computeAverageFare g
          = .ok (total / (ps.length : Double)) := by
    intro g xs hg
    refine ⟨(fareTotals xs).sum, Driver.calculateTotalEarnings_eq (hd.symm ▸ hg), ?_⟩
    have havg := Rider.computeAverageFare_eq (r := ps.foldl Rider.requestRide
      (Rider.construct rid rname)) (hr.symm ▸ hg) (hr.symm ▸ hne)
    rw [hr] at havg
    exact havg
  refine ⟨key h os hpt, fun q o hq => ?_, fun fares hfares => ?_⟩
  · obtain ⟨os', hos', -⟩ := hpt.store o.computeFare.2 hq
    obtain ⟨total, htotal, havg⟩ := key _ os' hos'
    exact ⟨o.computeFare.1, h.store q o.computeFare.2, total, Heap.computeFare_eq hq, htotal,
      havg⟩
  · cases fares with
    | nil => exact absurd rfl hfares
    | cons f fs => rfl

theorem driver_and_rider_share_fare_totals_witness :
    ([0, 1, 0] : List RidePtr) ≠ []
      ∧ sampleFreshHeap.PointsTo [0, 1, 0] [sampleFresh, samplePremium, sampleFresh]
      ∧ ∃ total,
        (([0, 1, 0] : List RidePtr).foldl Driver.addCompletedRide
            (Driver.construct 101 "D" 4.8)).calculateTotalEarnings sampleFreshHeap = .ok total
        ∧ (([0, 1, 0] : List RidePtr).foldl Rider.requestRide
            (Rider.construct 201 "R")).computeAverageFare sampleFreshHeap
            = .ok (total / (([0, 1, 0] : List RidePtr).length : Double)) :=
  have hpt : sampleFreshHeap.PointsTo [0, 1, 0] [sampleFresh, samplePremium, sampleFresh] :=
    .cons rfl (.cons rfl (.cons rfl .nil))
  ⟨by decide, hpt, (driver_and_rider_share_fare_totals [0, 1, 0] 101 201 "D" "R" 4.8
    sampleFreshHeap _ (by decide) hpt).1⟩

/-- C8, as stated, fails in binary64 in the scenario of `main`: the average fare times 3 is the
double nearest 60.22, while the total earnings are 60.220000000000006, one unit in the last place
above it. -/
theorem average_times_n_is_not_earnings_in_main :
    F64.mul (Binary64.Rider.computeAverageFare Binary64.mainFareTotals)
        (F64.ofNat Binary64.mainFareTotals.length)
        = .finite (2118802887189463 / 35184372088832)
      ∧ Binary64.Driver.calculateTotalEarnings Binary64.mainFareTotals
        = .finite (8475211548757853 / 140737488355328)
      ∧ F64.mul (Binary64.Rider.computeAverageFare Binary64.mainFareTotals)
          (F64.ofNat Binary64.mainFareTotals.length)
        ≠ Binary64.Driver.calculateTotalEarnings Binary64.mainFareTotals := by
  decide!

/-! ## The scenario of `main` -/

/-- C9, as the code has it: `main` runs to completion and, once its fare loop is over, the
standard ride of distance 4.3, the premium ride of distance 12.0 and the standard ride of
distance 3.1 hold, behind the three pointers of the vector `rides`, the fare totals that their
`computeFare` has computed.  In binary64 these are the doubles nearest 9.24 and 7.08 for the two
standard rides and 43.900000000000006 for the premium ride, which is within `10 ^ (-14)` of
43.9. -/
theorem main_ride_fares_up_to_rounding (showDouble : Double → String) :
    (∃ res, main showDouble = .ok res
      ∧ res.rides = [0, 1, 2]
      ∧ res.heap.deref 0 = .ok (.standard
          ((StandardRide.construct 1 "University" "City Center" 4.3).computeFare).2)
      ∧ res.heap.deref 1 = .ok (.premium
          ((PremiumRide.construct 2 "International Airport" "Hotel District"
            12.0).computeFare).2)
      ∧ res.heap.deref 2 = .ok (.standard
          ((StandardRide.construct 3 "Tech Park" "Student Housing" 3.1).computeFare).2))
      ∧ Binary64.mainFareTotals
          = [F64.lit 9.24, .finite (1544593934699725 / 35184372088832), F64.lit 7.08]
      ∧ |(1544593934699725 / 35184372088832 : ℚ) - 43.9| < 1 / 10 ^ 14 := by
  refine ⟨⟨_, rfl, rfl, rfl, rfl, rfl⟩, by decide!, ?_⟩
  rw [abs_lt]
  constructor <;> norm_num

/-- C9, as stated, fails in binary64 for the premium ride of `main`: its fare total is
43.900000000000006, which is neither the double nearest 43.9 nor the number 43.9. -/
theorem main_premium_fare_is_not_43_9 :
    Binary64.PremiumRide.computeFare (F64.lit 12.0)
        = .finite (1544593934699725 / 35184372088832)
      ∧ F64.lit 43.9 = .finite (6178375738798899 / 140737488355328)
      ∧ Binary64.PremiumRide.computeFare (F64.lit 12.0) ≠ F64.lit 43.9
      ∧ Binary64.PremiumRide.computeFare (F64.lit 12.0) ≠ .finite 43.9 := by
  decide!

/-- C10, as the code has it: `main` runs to completion, attaches the three rides to the driver
and to the rider in the order of `rides`, and prints the values that `calculateTotalEarnings`
and `computeAverageFare` return.  In binary64 the total earnings are 60.220000000000006, within
`10 ^ (-13)` of 60.22, and the average fare is the double `60.22 / 3`, which is 20.0733 when
rounded to four decimals (its product with 10000 rounds to 200733). -/
theorem main_earnings_and_average_up_to_rounding (showDouble : Double → String) :
    (∃ res, main showDouble = .ok res
      ∧ res.driver.completedRides = [0, 1, 2]
      ∧ res.rider.rideHistory = [0, 1, 2]
      ∧ res.driver.calculateTotalEarnings res.heap = .ok res.earnings
      ∧ res.rider.computeAverageFare res.heap = .ok res.averageFare
      ∧ "Total driver earnings: $" ++ showDouble res.earnings ∈ res.out
      ∧ "Average fare paid by rider: $" ++ showDouble res.averageFare ∈ res.out)
      ∧ Binary64.Driver.calculateTotalEarnings Binary64.mainFareTotals
          = .finite (8475211548757853 / 140737488355328)
      ∧ |(8475211548757853 / 140737488355328 : ℚ) - 60.22| < 1 / 10 ^ 13
      ∧ Binary64.Rider.computeAverageFare Binary64.mainFareTotals
          = .finite (5650141032505235 / 281474976710656)
      ∧ Binary64.Rider.computeAverageFare Binary64.mainFareTotals
          = F64.div (F64.lit 60.22) (F64.ofNat 3)
      ∧ round ((5650141032505235 / 281474976710656 : ℚ) * 10000) = 200733 := by
  refine ⟨⟨_, rfl, rfl, rfl, rfl, rfl, ?_, ?_⟩, by decide!, ?_, by decide!, by decide!, ?_⟩
  · simp [List.mem_append, List.mem_cons]
  · simp [List.mem_append, List.mem_cons]
  · rw [abs_lt]
    constructor <;> norm_num
  · rw [round_eq, Int.floor_eq_iff]
    norm_num

/-- C10, as stated, fails in binary64: the total earnings of `main` are 60.220000000000006,
which is neither the double nearest 60.22 nor the number 60.22. -/
theorem main_earnings_are_not_60_22 :
    Binary64.Driver.calculateTotalEarnings Binary64.mainFareTotals
        = .finite (8475211548757853 / 140737488355328)
      ∧ F64.lit 60.22 = .finite (2118802887189463 / 35184372088832)
      ∧ Binary64.Driver.calculateTotalEarnings Binary64.mainFareTotals ≠ F64.lit 60.22
      ∧ Binary64.Driver.calculateTotalEarnings Binary64.mainFareTotals ≠ .finite 60.22 := by
  decide!

/-! ## Attaching rides -/

/-- C11: `Driver::addCompletedRide` and `Rider::requestRide` only append.  They are total, and for
every aggregate with collection `L` and every pointer `p`, already in `L` or not, the collection
afterwards is `L ++ [p]`: the entries of `L` keep their positions, `p` occurs once more than
before, and the id, the name and the rating of the aggregate are unchanged. -/
theorem attach_only_appends (d : Driver) (r : Rider) (p : RidePtr) :
    ((d.addCompletedRide p).completedRides = d.completedRides ++ [p]
        ∧ (∀ i, i < d.completedRides.length →
            (d.addCompletedRide p).completedRides[i]? = d.completedRides[i]?)
        ∧ (d.addCompletedRide p).completedRides.count p = d.completedRides.count p + 1
        ∧ (d.addCompletedRide p).driverId = d.driverId
        ∧ (d.addCompletedRide p).driverName = d.driverName
        ∧ (d.addCompletedRide p).driverRating = d.driverRating)
      ∧ ((r.requestRide p).rideHistory = r.rideHistory ++ [p]
        ∧ (∀ i, i < r.rideHistory.length →
            (r.requestRide p).rideHistory[i]? = r.rideHistory[i]?)
        ∧ (r.requestRide p).rideHistory.count p = r.rideHistory.count p + 1
        ∧ (r.requestRide p).riderId = r.riderId
        ∧ (r.requestRide p).riderName = r.riderName) := by
  refine ⟨⟨rfl, fun i hi => ?_, ?_, rfl, rfl, rfl⟩, ⟨rfl, fun i hi => ?_, ?_, rfl, rfl⟩⟩
  · show (d.completedRides ++ [p])[i]? = _
    rw [List.getElem?_append_left hi]
  · show (d.completedRides ++ [p]).count p = _
    simp
  · show (r.rideHistory ++ [p])[i]? = _
    rw [List.getElem?_append_left hi]
  · show (r.rideHistory ++ [p]).count p = _
    simp

theorem attach_only_appends_witness :
    (1 : Nat) < (Driver.mk 101 "D" 4.8 [0, 1]).completedRides.length
      ∧ ((Driver.mk 101 "D" 4.8 [0, 1]).addCompletedRide 0).completedRides = [0, 1] ++ [0]
      ∧ ((Driver.mk 101 "D" 4.8 [0, 1]).addCompletedRide 0).completedRides[1]?
          = (Driver.mk 101 "D" 4.8 [0, 1]).completedRides[1]? :=
  ⟨by decide,
    (attach_only_appends (Driver.mk 101 "D" 4.8 [0, 1]) (Rider.mk 201 "R" [0, 1]) 0).1.1,
    (attach_only_appends (Driver.mk 101 "D" 4.8 [0, 1]) (Rider.mk 201 "R" [0, 1]) 0).1.2.1 1
      (by decide)⟩

/-- C12: a newly constructed `StandardRide` or `PremiumRide` has fare total 0, whatever its id,
pickup, dropoff and distance; and when every ride attached to a driver or to a rider is still as
its constructor left it, `calculateTotalEarnings` returns 0 and `computeAverageFare` returns
0. -/
theorem new_ride_has_zero_fare (id : Int) (pickup dropoff : String) (dist : Double) :
    (StandardRide.construct id pickup dropoff dist).getFareTotal = 0
      ∧ (PremiumRide.construct id pickup dropoff dist).getFareTotal = 0
      ∧ (∀ (h : Heap) (d : Driver) (os : List RideObject), h.PointsTo d.completedRides os →
          (∀ o ∈ os, o.NeverComputed) → d.calculateTotalEarnings h = .ok 0)
      ∧ (∀ (h : Heap) (r : Rider) (os : List RideObject), h.PointsTo r.rideHistory os →
          (∀ o ∈ os, o.NeverComputed) → r.computeAverageFare h = .ok 0) := by
  have hzero : ∀ os : List RideObject, (∀ o ∈ os, o.NeverComputed) → (fareTotals os).sum = 0 := by
    intro os hos
    apply List.sum_eq_zero
    intro f hf
    obtain ⟨o, ho, rfl⟩ := List.mem_map.mp hf
    obtain ⟨i, a, b, c, hstd | hprem⟩ := hos o ho
    · subst hstd
      show (0.0 : ℚ) = 0
      norm_num
    · subst hprem
      show (0.0 : ℚ) = 0
      norm_num
  refine ⟨?_, ?_, ?_, ?_⟩
  · show (0.0 : ℚ) = 0
    norm_num
  · show (0.0 : ℚ) = 0
    norm_num
  · intro h d os hpt hos
    rw [Driver.calculateTotalEarnings_eq hpt, hzero os hos]
  · intro h r os hpt hos
    by_cases hne : r.rideHistory = []
    · exact (computeAverageFare_empty h r hne)
    · rw [Rider.computeAverageFare_eq hpt hne, hzero os hos]
      simp

theorem new_ride_has_zero_fare_witness :
    sampleNewHeap.PointsTo [0, 1, 0] [sampleFresh, sampleFreshPremium, sampleFresh]
      ∧ (∀ o ∈ [sampleFresh, sampleFreshPremium, sampleFresh], o.NeverComputed)
      ∧ (Driver.mk 101 "D" 4.8 [0, 1, 0]).calculateTotalEarnings sampleNewHeap = .ok 0
      ∧ (Rider.mk 201 "R" [0, 1, 0]).computeAverageFare sampleNewHeap = .ok 0 :=
  have hpt : sampleNewHeap.PointsTo [0, 1, 0] [sampleFresh, sampleFreshPremium, sampleFresh] :=
    .cons rfl (.cons rfl (.cons rfl .nil))
  have hnew : ∀ o ∈ [sampleFresh, sampleFreshPremium, sampleFresh], o.NeverComputed := by
    intro o ho
    simp only [List.mem_cons, List.mem_singleton, List.mem_nil_iff, or_false] at ho
    rcases ho with rfl | rfl | rfl
    · exact ⟨3, "E", "F", 10, Or.inl rfl⟩
    · exact ⟨4, "G", "H", 7, Or.inr rfl⟩
    · exact ⟨3, "E", "F", 10, Or.inl rfl⟩
  ⟨hpt, hnew,
    (new_ride_has_zero_fare 0 "" "" 0).2.2.1 sampleNewHeap (Driver.mk 101 "D" 4.8 [0, 1, 0]) _
      hpt hnew,
    (new_ride_has_zero_fare 0 "" "" 0).2.2.2 sampleNewHeap (Rider.mk 201 "R" [0, 1, 0]) _
      hpt hnew⟩

/-! ## Printing -/

/-- C13, as the code has it: the line produced by `printRideDetails` is
`<tag>Ride ID: <id> | From: <pickup> | To: <dropoff> | Distance: <d> miles | Fare: $<f>`, the
numbers `<d>` and `<f>` rendered by the given function.  For a `StandardRide` the tag is
`[Standard]` followed by one blank, which is the format of the specification; for a
`PremiumRide` the tag is `[Premium]` followed by two blanks, so that both tags are equally
wide. -/
theorem printRideDetails_format (showDouble : Double → String) :
    (∀ r : StandardRide, (RideObject.standard r).printRideDetails showDouble
        = specRideDetails showDouble "Standard" r.toRide)
      ∧ (∀ r : PremiumRide, (RideObject.premium r).printRideDetails showDouble
        = detailsLine showDouble "[Premium]  " r.toRide)
      ∧ ("[Standard] ").length = ("[Premium]  ").length :=
  ⟨fun _ => rfl, fun _ => rfl, by decide⟩

/-- C13, as stated, fails on a premium ride: the line printed for the premium ride 2 from `A` to
`B` is not the line in the format of the specification, which has a single blank after
`[Premium]` (numbers rendered as `0` here). -/
theorem printRideDetails_premium_not_spec_format :
    (RideObject.premium (PremiumRide.construct 2 "A" "B" 12)).printRideDetails (fun _ => "0")
        = "[Premium]  Ride ID: 2 | From: A | To: B | Distance: 0 miles | Fare: $0"
      ∧ specRideDetails (fun _ => "0") "Premium" (PremiumRide.construct 2 "A" "B" 12).toRide
        = "[Premium] Ride ID: 2 | From: A | To: B | Distance: 0 miles | Fare: $0"
      ∧ (RideObject.premium (PremiumRide.construct 2 "A" "B" 12)).printRideDetails (fun _ => "0")
        ≠ specRideDetails (fun _ => "0") "Premium" (PremiumRide.construct 2 "A" "B" 12).toRide :=
  ⟨by decide, by decide, by decide⟩

/-- C14, as the code has it: for a rider constructed with `id` and `name` to which the live
pointers `ps` were passed with `requestRide`, in this order, `printRideHistory` prints the rider
id/name line, then the line `Ride history:`, then exactly one details line per ride: `n + 2`
lines for `n` rides, the line after the first `k + 2` being the details line of the ride passed
`k`-th (counting from 0). -/
theorem printRideHistory_lines (showDouble : Double → String) (h : Heap) (id : Int)
    (name : String) (ps : List RidePtr) (os : List RideObject) (hpt : h.PointsTo ps os) :
    ∃ lines, (ps.foldl Rider.requestRide (Rider.construct id name)).printRideHistory showDouble h
        = .ok lines
      ∧ lines = ["Rider ID: " ++ toString id ++ " | Name: " ++ name, "Ride history:"]
          ++ os.map (RideObject.printRideDetails showDouble)
      ∧ lines.length = ps.length + 2
      ∧ ∀ k p, ps[k]? = some p → ∃ line, h.printRideDetails showDouble p = .ok line
          ∧ lines[k + 2]? = some line := by
  have hr : (ps.foldl Rider.requestRide (Rider.construct id name)).rideHistory = ps := by
    simp [Rider.rideHistory_foldl, Rider.construct]
  have hid : (ps.foldl Rider.requestRide (Rider.construct id name)).riderId = id :=
    Rider.riderId_foldl ps _
  have hname : (ps.foldl Rider.requestRide (Rider.construct id name)).riderName = name :=
    Rider.riderName_foldl ps _
  refine ⟨_, ?_, rfl, ?_, ?_⟩
  · unfold Rider.printRideHistory
    rw [hr, hid, hname, foldlM_printRideDetails showDouble h ps os hpt]
  · simp [hpt.length_eq]
  · intro k p hk
    obtain ⟨o, ho, hp⟩ := hpt.getElem? k p hk
    refine ⟨o.printRideDetails showDouble, Heap.printRideDetails_eq showDouble hp, ?_⟩
    have hlt : ¬ k + 2 < 2 := by omega
    simp [List.getElem?_append_right, ho]

theorem printRideHistory_lines_witness :
    sampleHeap.PointsTo [1, 0] [samplePremium, sampleStandard]
      ∧ ∃ lines, (([1, 0] : List RidePtr).foldl Rider.requestRide
            (Rider.construct 201 "R")).printRideHistory (fun _ => "0") sampleHeap = .ok lines
        ∧ lines = ["Rider ID: " ++ toString (201 : Int) ++ " | Name: " ++ "R", "Ride history:"]
            ++ [samplePremium, sampleStandard].map (RideObject.printRideDetails (fun _ => "0"))
        ∧ lines.length = ([1, 0] : List RidePtr).length + 2
        ∧ ∀ k p, ([1, 0] : List RidePtr)[k]? = some p →
            ∃ line, sampleHeap.printRideDetails (fun _ => "0") p = .ok line
              ∧ lines[k + 2]? = some line :=
  have hpt : sampleHeap.PointsTo [1, 0] [samplePremium, sampleStandard] :=
    .cons rfl (.cons rfl .nil)
  ⟨hpt, printRideHistory_lines (fun _ => "0") sampleHeap 201 "R" [1, 0] _ hpt⟩

/-- C14, as stated, fails: for a rider with the one ride 0 in its history `printRideHistory`
prints three lines, not two, and the line after the rider id/name line is `Ride history:`, not a
details line. -/
theorem printRideHistory_one_ride_three_lines :
    ((Rider.construct 201 "R").requestRide 0).printRideHistory (fun _ => "0") sampleHeap
        = .ok ["Rider ID: 201 | Name: R", "Ride history:",
            "[Standard] Ride ID: 1 | From: A | To: B | Distance: 0 miles | Fare: $0"]
      ∧ ((Rider.construct 201 "R").requestRide 0).rideHistory.length + 1 ≠ 3 :=
  ⟨rfl, by decide⟩

/-! ## Frame, additivity and bounds -/

/-- C15: `computeFare` changes only the stored fare total.  On a live pointer `p` to the object
`o` the call returns `total` and leaves behind `p` an object `o'` of the same class whose id,
pickup location, dropoff location and distance are those of `o`; the base part of `o'` is that of
`o` with the fare total set to `total`, and every other pointer reads as before. -/
theorem computeFare_changes_only_fareTotal (h : Heap) (p : RidePtr) (o : RideObject)
    (hp : h.deref p = .ok o) :
    ∃ total h' o', h.computeFare p = .ok (total, h') ∧ h'.deref p = .ok o'
      ∧ o'.getRideId = o.getRideId
      ∧ o'.toRide.pickupLocation = o.toRide.pickupLocation
      ∧ o'.toRide.dropoffLocation = o.toRide.dropoffLocation
      ∧ o'.getDistance = o.getDistance
      ∧ o'.variant = o.variant
      ∧ o'.toRide = o.toRide.setFareTotal total
      ∧ ∀ q, q ≠ p → h'.deref q = h.deref q := by
  refine ⟨o.computeFare.1, h.store p o.computeFare.2, o.computeFare.2, Heap.computeFare_eq hp,
    Heap.deref_store_self _ hp, ?_, ?_, ?_, ?_, ?_, ?_, fun q hq =>
      Heap.deref_store_ne _ (Ne.symm hq)⟩ <;> cases o <;> rfl

theorem computeFare_changes_only_fareTotal_witness :
    sampleFreshHeap.deref 0 = .ok sampleFresh
      ∧ ∃ total h' o', sampleFreshHeap.computeFare 0 = .ok (total, h') ∧ h'.deref 0 = .ok o'
        ∧ o'.getRideId = sampleFresh.getRideId
        ∧ o'.toRide.pickupLocation = sampleFresh.toRide.pickupLocation
        ∧ o'.toRide.dropoffLocation = sampleFresh.toRide.dropoffLocation
        ∧ o'.getDistance = sampleFresh.getDistance
        ∧ o'.variant = sampleFresh.variant
        ∧ o'.toRide = sampleFresh.toRide.setFareTotal total
        ∧ ∀ q, q ≠ 0 → h'.deref q = sampleFreshHeap.deref q :=
  ⟨rfl, computeFare_changes_only_fareTotal sampleFreshHeap 0 sampleFresh rfl⟩

/-- C16: total earnings are additive over attachment.  When the driver's collection is live and
`p` is a live pointer to the object `o`, `calculateTotalEarnings` returns some `before`, after
`addCompletedRide(p)` it returns `before` plus the current fare total of `o`, and after attaching
`p` a second time it returns `before` plus that fare total twice. -/
theorem calculateTotalEarnings_additive (h : Heap) (d : Driver) (p : RidePtr) (o : RideObject)
    (os : List RideObject) (hp : h.deref p = .ok o) (hpt : h.PointsTo d.completedRides os) :
    ∃ before, d.calculateTotalEarnings h = .ok before
      ∧ (d.addCompletedRide p).calculateTotalEarnings h = .ok (before + o.getFareTotal)
      ∧ ((d.addCompletedRide p).addCompletedRide p).calculateTotalEarnings h
          = .ok (before + o.getFareTotal + o.getFareTotal) := by
  have hone : h.PointsTo (d.addCompletedRide p).completedRides (os ++ [o]) :=
    hpt.append_one hp
  have htwo : h.PointsTo ((d.addCompletedRide p).addCompletedRide p).completedRides
      (os ++ [o] ++ [o]) := hone.append_one hp
  refine ⟨(fareTotals os).sum, Driver.calculateTotalEarnings_eq hpt, ?_, ?_⟩
  · rw [Driver.calculateTotalEarnings_eq hone]
    simp [fareTotals]
  · rw [Driver.calculateTotalEarnings_eq htwo]
    simp [fareTotals, add_assoc]

theorem calculateTotalEarnings_additive_witness :
    sampleHeap.deref 1 = .ok samplePremium
      ∧ sampleHeap.PointsTo (Driver.mk 101 "D" 4.8 [0, 1]).completedRides
          [sampleStandard, samplePremium]
      ∧ ∃ before, (Driver.mk 101 "D" 4.8 [0, 1]).calculateTotalEarnings sampleHeap = .ok before
        ∧ ((Driver.mk 101 "D" 4.8 [0, 1]).addCompletedRide 1).calculateTotalEarnings sampleHeap
            = .ok (before + samplePremium.getFareTotal)
        ∧ (((Driver.mk 101 "D" 4.8 [0, 1]).addCompletedRide 1).addCompletedRide
              1).calculateTotalEarnings sampleHeap
            = .ok (before + samplePremium.getFareTotal + samplePremium.getFareTotal) :=
  have hpt : sampleHeap.PointsTo (Driver.mk 101 "D" 4.8 [0, 1]).completedRides
      [sampleStandard, samplePremium] := .cons rfl (.cons rfl .nil)
  ⟨rfl, hpt, calculateTotalEarnings_additive sampleHeap (Driver.mk 101 "D" 4.8 [0, 1]) 1
    samplePremium _ rfl hpt⟩

/-- C17, as the code has it, in binary64: for a non-negative distance `d`, the fare computed by
a premium ride of distance `d` is at least the fare computed by a standard ride of distance `d`,
and strictly greater unless the premium fare has overflowed to infinity; the standard fare is at
least 1.5 and the premium fare at least 5.5; and each fare is monotonically non-decreasing in
the distance: a ride of a distance `d'` with `d ≤ d'` gets at least the fare of distance `d`. -/
theorem premium_above_standard_unless_overflow (d : ℚ) (hd : 0 ≤ d) :
    F64.le (Binary64.StandardRide.computeFare (.finite d))
        (Binary64.PremiumRide.computeFare (.finite d))
      ∧ (Binary64.PremiumRide.computeFare (.finite d) ≠ .posInf →
          F64.lt (Binary64.StandardRide.computeFare (.finite d))
            (Binary64.PremiumRide.computeFare (.finite d)))
      ∧ F64.le (F64.lit 1.5) (Binary64.StandardRide.computeFare (.finite d))
      ∧ F64.le (F64.lit 5.5) (Binary64.PremiumRide.computeFare (.finite d))
      ∧ ∀ d', d ≤ d' →
          F64.le (Binary64.StandardRide.computeFare (.finite d))
            (Binary64.StandardRide.computeFare (.finite d'))
          ∧ F64.le (Binary64.PremiumRide.computeFare (.finite d))
            (Binary64.PremiumRide.computeFare (.finite d')) := by
  obtain ⟨ha, hab, hs15, hc4, hp55, hsp⟩ := fare_roundings d hd
  have hA : (0 : ℚ) ≤ 8106479329266893 / 4503599627370496 * d := by positivity
  have hB : (0 : ℚ) ≤ 3602879701896397 / 1125899906842624 * d := by positivity
  refine ⟨?_, ?_, ?_, ?_, ?_⟩
  · rw [Binary64.StandardRide.computeFare_standard_of_nonneg d hd,
      Binary64.PremiumRide.computeFare_premium_of_nonneg d hd]
    apply F64.le_ite
    · intro hQ hP
      apply hQ
      rcases hP with h | h
      · exact Or.inl (le_trans h hab)
      · exact Or.inr (Or.inr (le_trans h (le_of_lt hsp)))
    · intro _
      exact le_of_lt hsp
  · rw [Binary64.StandardRide.computeFare_standard_of_nonneg d hd,
      Binary64.PremiumRide.computeFare_premium_of_nonneg d hd]
    intro hfin
    apply F64.lt_ite _ _ _ _ _ _ hfin
    · intro hQ hP
      apply hQ
      rcases hP with h | h
      · exact Or.inl (le_trans h hab)
      · exact Or.inr (Or.inr (le_trans h (le_of_lt hsp)))
    · intro _
      exact hsp
  · rw [Binary64.StandardRide.computeFare_standard_of_nonneg d hd, F64.lit_values.1]
    exact F64.finite_le_ite _ _ _ hs15
  · rw [Binary64.PremiumRide.computeFare_premium_of_nonneg d hd, F64.lit_values.2.2.2.2.1]
    exact F64.finite_le_ite _ _ _ hp55
  · intro d' hdd'
    have hd' : 0 ≤ d' := le_trans hd hdd'
    obtain ⟨ha', -, -, hc4', -, -⟩ := fare_roundings d' hd'
    have hb := roundVal_nonneg _ hB
    have maa : roundVal (8106479329266893 / 4503599627370496 * d)
        ≤ roundVal (8106479329266893 / 4503599627370496 * d') :=
      roundVal_mono _ _ hA (by linarith)
    have mss : roundVal (3 / 2 + roundVal (8106479329266893 / 4503599627370496 * d))
        ≤ roundVal (3 / 2 + roundVal (8106479329266893 / 4503599627370496 * d')) :=
      roundVal_mono _ _ (by linarith) (by linarith)
    have mbb : roundVal (3602879701896397 / 1125899906842624 * d)
        ≤ roundVal (3602879701896397 / 1125899906842624 * d') :=
      roundVal_mono _ _ hB (by linarith)
    have mcc : roundVal (4 + roundVal (3602879701896397 / 1125899906842624 * d))
        ≤ roundVal (4 + roundVal (3602879701896397 / 1125899906842624 * d')) :=
      roundVal_mono _ _ (by linarith) (by linarith)
    have mpp : roundVal (roundVal (4 + roundVal (3602879701896397 / 1125899906842624 * d)) + 3 / 2)
        ≤ roundVal (roundVal (4 + roundVal (3602879701896397 / 1125899906842624 * d')) + 3 / 2) :=
      roundVal_mono _ _ (by linarith) (by linarith)
    rw [Binary64.StandardRide.computeFare_standard_of_nonneg d hd,
      Binary64.PremiumRide.computeFare_premium_of_nonneg d hd,
      Binary64.StandardRide.computeFare_standard_of_nonneg d' hd',
      Binary64.PremiumRide.computeFare_premium_of_nonneg d' hd']
    constructor
    · apply F64.le_ite
      · intro hQ hP
        apply hQ
        rcases hP with h | h
        · exact Or.inl (le_trans h maa)
        · exact Or.inr (le_trans h mss)
      · intro _
        exact mss
    · apply F64.le_ite
      · intro hQ hP
        apply hQ
        rcases hP with h | h | h
        · exact Or.inl (le_trans h mbb)
        · exact Or.inr (Or.inl (le_trans h mcc))
        · exact Or.inr (Or.inr (le_trans h mpp))
      · intro _
        exact mpp

theorem premium_above_standard_unless_overflow_witness :
    (0 : ℚ) ≤ 12
      ∧ Binary64.PremiumRide.computeFare (.finite 12) ≠ .posInf
      ∧ F64.lt (Binary64.StandardRide.computeFare (.finite 12))
          (Binary64.PremiumRide.computeFare (.finite 12)) :=
  ⟨by norm_num, by decide!,
    (premium_above_standard_unless_overflow 12 (by norm_num)).2.1 (by decide!)⟩

/-- C17, as stated, fails in binary64 at the non-negative distance `1e308`: both fares overflow
to infinity, so the premium fare is not strictly greater than the standard fare. -/
theorem premium_not_above_standard_at_1e308 :
    F64.le (.finite 0) (F64.lit 1e308)
      ∧ F64.lit 1e308 ≠ .posInf
      ∧ Binary64.StandardRide.computeFare (F64.lit 1e308) = .posInf
      ∧ Binary64.PremiumRide.computeFare (F64.lit 1e308) = .posInf
      ∧ ¬ F64.lt (Binary64.StandardRide.computeFare (F64.lit 1e308))
          (Binary64.PremiumRide.computeFare (F64.lit 1e308)) := by
  have hstd : Binary64.StandardRide.computeFare (F64.lit 1e308) = .posInf := by
    decide!
  have hprem : Binary64.PremiumRide.computeFare (F64.lit 1e308) = .posInf := by
    decide!
  have hfin : F64.lit 1e308 = .finite ((5010420900022432 : ℚ) * (2 : ℚ) ^ (971 : ℤ)) := by
    decide!
  refine ⟨?_, ?_, hstd, hprem, ?_⟩
  · rw [hfin]
    show (0 : ℚ) ≤ _
    positivity
  · rw [hfin]
    intro hc
    cases hc
  · rw [hstd, hprem]
    intro hc
    exact hc

/-- C19: negative distances are not rejected.  For every negative distance `d`, a standard and a
premium ride of distance `d` are constructed and allocated like any other; `computeFare` on the
new pointer returns, with the linear formula of the class as the code writes it
(`1.5 + 1.8 * d`, `4.0 + 3.2 * d + 1.5`) as its value and as the fare total stored afterwards;
and a standard ride of distance `-1` ends up with a negative stored fare total. -/
theorem negative_distance_not_rejected (h : Heap) (id : Int) (pickup dropoff : String)
    (d : Double) (_hd : d < 0) :
    (∃ h', (h.new (.standard (StandardRide.construct id pickup dropoff d))).2.computeFare
          (h.new (.standard (StandardRide.construct id pickup dropoff d))).1
          = .ok (1.5 + 1.8 * d, h')
        ∧ h'.getFareTotal (h.new (.standard (StandardRide.construct id pickup dropoff d))).1
          = .ok (1.5 + 1.8 * d))
      ∧ (∃ h', (h.new (.premium (PremiumRide.construct id pickup dropoff d))).2.computeFare
          (h.new (.premium (PremiumRide.construct id pickup dropoff d))).1
          = .ok (4.0 + 3.2 * d + 1.5, h')
        ∧ h'.getFareTotal (h.new (.premium (PremiumRide.construct id pickup dropoff d))).1
          = .ok (4.0 + 3.2 * d + 1.5))
      ∧ (((StandardRide.construct id pickup dropoff (-1)).computeFare).2).getFareTotal < 0 := by
  refine ⟨?_, ?_, ?_⟩
  · have hp := Heap.deref_new h (.standard (StandardRide.construct id pickup dropoff d))
    exact ⟨_, Heap.computeFare_eq hp, Heap.getFareTotal_eq (Heap.deref_store_self _ hp)⟩
  · have hp := Heap.deref_new h (.premium (PremiumRide.construct id pickup dropoff d))
    exact ⟨_, Heap.computeFare_eq hp, Heap.getFareTotal_eq (Heap.deref_store_self _ hp)⟩
  · show (1.5 : ℚ) + 1.8 * (-1) < 0
    norm_num

theorem negative_distance_not_rejected_witness :
    (-1 : Double) < 0
      ∧ ∃ h', (sampleHeap.new (.standard (StandardRide.construct 9 "A" "B" (-1)))).2.computeFare
          (sampleHeap.new (.standard (StandardRide.construct 9 "A" "B" (-1)))).1
          = .ok (1.5 + 1.8 * (-1), h')
        ∧ h'.getFareTotal (sampleHeap.new (.standard (StandardRide.construct 9 "A" "B" (-1)))).1
          = .ok (1.5 + 1.8 * (-1)) :=
  ⟨by norm_num, (negative_distance_not_rejected sampleHeap 9 "A" "B" (-1) (by norm_num)).1⟩

end RideSharing
